import Mathlib

/-!
# CPPTools input helpers: a shallow embedding and its verified properties

The development embeds the four console readers of
`include/CPPTools/input.hpp` (`menuSelection`, `getIntSelective`,
`getCharSelective`, `getCharUnbuffered`) as Lean functions.

* `std::cin` is the list of characters still to be read.  The formatted
  extractions `std::cin >> int` and `std::cin >> char`, `std::cin.clear()` and
  `std::cin.ignore(max, '\n')` are functions on that list.
* `std::cout` is the chronological list of things written (`Out`).
* A retry loop is a function with a fuel argument; the entry points supply
  more fuel than the input is long, which is always enough
  (`menuLoop_fuel`, `getIntLoop_fuel`, `getCharLoop_fuel`, `entry_points_total`).
* At end of input an extraction fails without consuming anything, so the
  iteration repeats for ever: that outcome is `Status.neverReturns`.
-/

namespace CPPTools

/-! ## Data model -/

/-- One write to `std::cout`. -/
inductive Out where
  /-- The menu line `std::cout << i + 1 << ": " << options[i] << std::endl`. -/
  | menuItem (ordinal : Nat) (label : String)
  /-- The prompt `std::cout << prompt`. -/
  | prompt (text : String)
  /-- An error line `std::cout << error... << std::endl`. -/
  | message (text : String)
  deriving DecidableEq, Repr

/-- How a call ends. -/
inductive Status (α : Type) where
  /-- The function returned `value`. -/
  | returned (value : α)
  /-- An `assert` failed (assertions enabled: `NDEBUG` is not defined). -/
  | assertionFailed
  /-- The input ran out: every further iteration fails the same way. -/
  | neverReturns
  /-- The model's fuel ran out (does not happen at the entry points). -/
  | outOfFuel
  deriving DecidableEq, Repr

/-- Outcome of a call: how it ended, what it wrote, what input is left. -/
structure Run (α : Type) where
  status : Status α
  out : List Out
  rest : List Char
  deriving DecidableEq, Repr

/-- The run `r` preceded by the writes `pre`. -/
def Run.after {α : Type} (pre : List Out) (r : Run α) : Run α :=
  { r with out := pre ++ r.out }

/-! ## The stream primitives -/

/-- Smallest value of `int` (32 bits). -/
def INT_MIN : Int := -2147483648

/-- Largest value of `int` (32 bits). -/
def INT_MAX : Int := 2147483647

/-- Whitespace of the classic locale (`std::isspace`): space, `\t`, `\n`,
`\v`, `\f`, `\r`. -/
def isSpace (c : Char) : Bool :=
  c = ' ' || c = '\t' || c = '\n' || c = Char.ofNat 11 || c = Char.ofNat 12 || c = '\r'

/-- Decimal digit. -/
def isDigit (c : Char) : Bool :=
  decide (48 ≤ c.toNat) && decide (c.toNat ≤ 57)

/-- The leading whitespace skipped by a formatted extraction. -/
def skipWs (input : List Char) : List Char :=
  input.dropWhile isSpace

/-- Value of a run of decimal digits. -/
def digitsValue (ds : List Char) : Nat :=
  ds.foldl (fun acc c => 10 * acc + (c.toNat - 48)) 0

/-- The sign step of an integer extraction: whether the field starts with
`-`, and what follows the optional sign. -/
def signOf (s : List Char) : Bool × List Char :=
  match s with
  | '-' :: t => (true, t)
  | '+' :: t => (false, t)
  | _ => (false, s)

/-- The number a sign flag and a run of digits stand for. -/
def signedValue (negative : Bool) (ds : List Char) : Int :=
  if negative then -(digitsValue ds : Int) else (digitsValue ds : Int)

/-- The extraction `std::cin >> p_input` for an `int`: skip whitespace, take an
optional sign and the longest run of digits.  The result is `none` when the
stream is in the fail state afterwards (no digit, or a value outside `int`;
the digits are consumed all the same), with the remaining input. -/
def readInt (input : List Char) : Option Int × List Char :=
  let signed := signOf (skipWs input)
  let ds := signed.2.takeWhile isDigit
  let rest := signed.2.dropWhile isDigit
  if ds = [] then (none, rest)
  else
    let v : Int := signedValue signed.1 ds
    if INT_MIN ≤ v ∧ v ≤ INT_MAX then (some v, rest) else (none, rest)

/-- The extraction `std::cin >> p_input` for a `char`: skip whitespace, take
one character; it fails only at end of input. -/
def readChar (input : List Char) : Option Char × List Char :=
  match skipWs input with
  | [] => (none, [])
  | c :: t => (some c, t)

/-- The call `std::cin.ignore(numeric_limits<streamsize>::max(), '\n')`
(after `std::cin.clear()`): drop everything up to and including the next
newline. -/
def ignoreLine (input : List Char) : List Char :=
  (input.dropWhile (fun c => c != '\n')).drop 1

/-! ## menuSelection -/

/-- The loop `for (int i = 0; i < options.size(); i++)` printing the menu,
from ordinal `i + 1` on. -/
def printMenu : Nat → List String → List Out
  | _, [] => []
  | i, o :: os => Out.menuItem (i + 1) o :: printMenu (i + 1) os

/-- The `while (true)` loop of `menuSelection` over `n` options. -/
def menuLoop (n : Nat) (prompt errorInvalid : String) : Nat → List Char → Run Int
  | 0, input => ⟨Status.outOfFuel, [], input⟩
  | fuel + 1, input =>
    match readInt input with
    | (some u_selection, rest) =>
      if 0 < u_selection ∧ u_selection ≤ (n : Int) then
        ⟨Status.returned (u_selection - 1), [Out.prompt prompt], rest⟩
      else
        Run.after [Out.prompt prompt, Out.message errorInvalid]
          (menuLoop n prompt errorInvalid fuel (ignoreLine rest))
    | (none, rest) =>
      if input = [] then
        -- end of input: this iteration consumes nothing and repeats for ever
        ⟨Status.neverReturns, [Out.prompt prompt, Out.message errorInvalid], []⟩
      else
        Run.after [Out.prompt prompt, Out.message errorInvalid]
          (menuLoop n prompt errorInvalid fuel (ignoreLine rest))

/-- The function `menuSelection(options, prompt, errorInvalid)` run on the
input `input`. -/
def menuSelection (options : List String) (prompt errorInvalid : String)
    (input : List Char) : Run Int :=
  if 1 < options.length ∧ options.length < 10 then
    Run.after (printMenu 0 options)
      (menuLoop options.length prompt errorInvalid (input.length + 1) input)
  else
    ⟨Status.assertionFailed, [], input⟩

/-! ## getIntSelective -/

/-- The `while (true)` loop of `getIntSelective`. -/
def getIntLoop (prompt : String) (max min : Int)
    (errorInvalid errorTooBig errorTooSmall : String) : Nat → List Char → Run Int
  | 0, input => ⟨Status.outOfFuel, [], input⟩
  | fuel + 1, input =>
    match readInt input with
    | (none, rest) =>
      if input = [] then
        -- end of input: this iteration consumes nothing and repeats for ever
        ⟨Status.neverReturns, [Out.prompt prompt, Out.message errorInvalid], []⟩
      else
        Run.after [Out.prompt prompt, Out.message errorInvalid]
          (getIntLoop prompt max min errorInvalid errorTooBig errorTooSmall fuel
            (ignoreLine rest))
    | (some p_input, rest) =>
      if p_input > max then
        Run.after [Out.prompt prompt, Out.message errorTooBig]
          (getIntLoop prompt max min errorInvalid errorTooBig errorTooSmall fuel rest)
      else if p_input < min then
        Run.after [Out.prompt prompt, Out.message errorTooSmall]
          (getIntLoop prompt max min errorInvalid errorTooBig errorTooSmall fuel rest)
      else
        ⟨Status.returned p_input, [Out.prompt prompt], rest⟩

/-- The function `getIntSelective(prompt, max, min, errorInvalid, errorTooBig,
errorTooSmall)` run on the input `input`. -/
def getIntSelective (prompt : String) (max min : Int)
    (errorInvalid errorTooBig errorTooSmall : String) (input : List Char) : Run Int :=
  if min < max then
    getIntLoop prompt max min errorInvalid errorTooBig errorTooSmall (input.length + 1) input
  else
    ⟨Status.assertionFailed, [], input⟩

/-! ## getCharSelective -/

/-- The `while (true)` loop of `getCharSelective`. -/
def getCharLoop (prompt : String) (valid_chars : List Char)
    (errorInvalid errorNotInList : String) : Nat → List Char → Run Char
  | 0, input => ⟨Status.outOfFuel, [], input⟩
  | fuel + 1, input =>
    match readChar input with
    | (none, rest) =>
      if input = [] then
        -- end of input: this iteration consumes nothing and repeats for ever
        ⟨Status.neverReturns, [Out.prompt prompt, Out.message errorInvalid], []⟩
      else
        Run.after [Out.prompt prompt, Out.message errorInvalid]
          (getCharLoop prompt valid_chars errorInvalid errorNotInList fuel (ignoreLine rest))
    | (some p_input, rest) =>
      if valid_chars.length ≠ 0 ∧ p_input ∉ valid_chars then
        Run.after [Out.prompt prompt, Out.message errorNotInList]
          (getCharLoop prompt valid_chars errorInvalid errorNotInList fuel rest)
      else
        ⟨Status.returned p_input, [Out.prompt prompt], rest⟩

/-- The function `getCharSelective(prompt, valid_chars, errorInvalid,
errorNotInList)` run on the input `input`. -/
def getCharSelective (prompt : String) (valid_chars : List Char)
    (errorInvalid errorNotInList : String) (input : List Char) : Run Char :=
  getCharLoop prompt valid_chars errorInvalid errorNotInList (input.length + 1) input

/-! ## getCharUnbuffered, POSIX variant -/

/-- The fields of `struct termios` (flag words are 32-bit `tcflag_t`). -/
structure Termios where
  c_iflag : Nat
  c_oflag : Nat
  c_cflag : Nat
  c_lflag : Nat
  c_line : Nat
  c_cc : List Nat
  c_ispeed : Nat
  c_ospeed : Nat
  deriving DecidableEq, Repr

/-- The operator `~` on a 32-bit flag mask. -/
def complement32 (mask : Nat) : Nat :=
  (2 ^ 32 - 1 - mask) % 2 ^ 32

/-- What a call of `getCharUnbuffered` leaves behind: the value returned and
the attributes of the terminal. -/
structure KeyRead where
  key : Int
  terminal : Termios
  deriving DecidableEq, Repr

/-- The Linux branch of `getCharUnbuffered`.  `ICANON`, `ECHO` (of
`<termios.h>`) and `EOF` (of `<cstdio>`) are parameters; `terminal` holds the
attributes of standard input before the call and `getchar` what
`std::getchar()` delivers: a byte, or `none` at end of input or on a read
error. -/
def getCharUnbufferedPosix (ICANON ECHO : Nat) (EOF : Int) (terminal : Termios)
    (getchar : Option Nat) : KeyRead :=
  -- tcgetattr(STDIN_FILENO, &terminal_config)
  let terminal_config := terminal
  -- terminal_config.c_lflag &= ~(ICANON | ECHO)
  let terminal_config :=
    { terminal_config with c_lflag := terminal_config.c_lflag &&& complement32 (ICANON ||| ECHO) }
  -- tcsetattr(STDIN_FILENO, TCSANOW, &terminal_config)
  let raw := terminal_config
  -- setbuf(stdin, NULL) changes the buffering of the C stream only
  -- int key = static_cast<int>(std::getchar())
  let key : Int :=
    match getchar with
    | some c => (c : Int)
    | none => EOF
  -- terminal_config.c_lflag |= (ICANON | ECHO)
  let terminal_config :=
    { raw with c_lflag := (raw.c_lflag ||| (ICANON ||| ECHO)) % 2 ^ 32 }
  -- tcsetattr(STDIN_FILENO, TCSANOW, &terminal_config)
  ⟨key, terminal_config⟩

/-! ## getCharUnbuffered, console variant -/

/-- The parts of an `INPUT_RECORD` the function looks at. -/
structure InputRecord where
  EventType : Nat
  bKeyDown : Bool
  AsciiChar : Int
  deriving DecidableEq, Repr

/-- The `while (true)` loop of the Windows branch over what the successive
calls of `ReadConsoleInput` deliver (`none` for a call that fails).  The
result is `none` when the events run out before the loop returns (the call
blocks). -/
def pollConsole (KEY_EVENT : Nat) : List (Option InputRecord) → Option Int
  | [] => none
  | none :: _ => some 0
  | some irec :: later =>
    if irec.EventType = KEY_EVENT ∧ irec.bKeyDown = true then some irec.AsciiChar
    else
      -- CPPTools::tools::sleep(1), then the next ReadConsoleInput
      pollConsole KEY_EVENT later

/-- The Windows branch of `getCharUnbuffered`.  `KEY_EVENT` (of
`<Windows.h>`) is a parameter; `handleValid` tells whether `GetStdHandle`
gave a handle other than `INVALID_HANDLE_VALUE`. -/
def getCharUnbufferedWin32 (KEY_EVENT : Nat) (handleValid : Bool)
    (events : List (Option InputRecord)) : Option Int :=
  if handleValid = false then some 0 else pollConsole KEY_EVENT events

/-! ## Vocabulary of the statements -/

/-- The text of an integer token: an optional minus sign and a run of
digits. -/
def intToken (negative : Bool) (ds : List Char) : List Char :=
  if negative then '-' :: ds else ds

/-- An entry: a line of input (no newline inside) that is not blank. -/
def nonBlankLine (e : List Char) : Bool :=
  e.all (fun c => c != '\n') && e.any (fun c => !isSpace c)

/-- The integer an entry starts with, as the extraction reads it; `none`
when the extraction fails (no integer there, or one that does not fit in
`int`). -/
def leadingInt (e : List Char) : Option Int :=
  (readInt e).1

/-- Whether a text is, as a whole, a decimal integer: an optional sign, then
digits and nothing else. -/
def isIntegerText (e : List Char) : Bool :=
  !(signOf e).2.isEmpty && (signOf e).2.all isDigit

/-- The ways `getIntSelective` rejects an entry. -/
inductive Rejection where
  | invalid
  | tooBig
  | tooSmall
  deriving DecidableEq, Repr

/-- The message of a rejection. -/
def Rejection.text (errorInvalid errorTooBig errorTooSmall : String) : Rejection → String
  | Rejection.invalid => errorInvalid
  | Rejection.tooBig => errorTooBig
  | Rejection.tooSmall => errorTooSmall

/-- The kind of rejection of an entry that holds one item: `invalid` when the
extraction fails, `tooBig` or `tooSmall` when the entry is an `int` above
`max` or below `min` followed by blanks only; `none` for any other entry. -/
def rejectionOf (max min : Int) (e : List Char) : Option Rejection :=
  match readInt e with
  | (none, _) => some Rejection.invalid
  | (some v, trailing) =>
    if v > max then
      if trailing.all isSpace then some Rejection.tooBig else none
    else if v < min then
      if trailing.all isSpace then some Rejection.tooSmall else none
    else none

/-- Whether a write is an error line. -/
def Out.isMessage : Out → Bool
  | Out.message _ => true
  | _ => false

/-! ## Lemmas on the stream primitives -/

theorem dropWhile_length_le (p : Char → Bool) (l : List Char) :
    (l.dropWhile p).length ≤ l.length :=
  (List.dropWhile_sublist p).length_le

theorem dropWhile_length_lt (p : Char → Bool) (l : List Char) (h : l.takeWhile p ≠ []) :
    (l.dropWhile p).length < l.length := by
  have h1 := congrArg List.length (List.takeWhile_append_dropWhile p l)
  have h2 : 0 < (l.takeWhile p).length := List.length_pos.mpr h
  rw [List.length_append] at h1
  omega

theorem skipWs_length_le (input : List Char) : (skipWs input).length ≤ input.length :=
  dropWhile_length_le _ _

theorem skipWs_append_cons (ws : List Char) (c : Char) (rest : List Char)
    (hws : ∀ w ∈ ws, isSpace w = true) (hc : isSpace c = false) :
    skipWs (ws ++ c :: rest) = c :: rest := by
  induction ws with
  | nil => simp [skipWs, List.dropWhile, hc]
  | cons w ws ih =>
    have hw : isSpace w = true := hws w (List.mem_cons_self _ _)
    have ih2 := ih (fun x hx => hws x (List.mem_cons_of_mem _ hx))
    simpa [skipWs, List.dropWhile, hw] using ih2

theorem ignoreLine_length_le (input : List Char) :
    (ignoreLine input).length ≤ input.length := by
  unfold ignoreLine
  have h := dropWhile_length_le (fun c => c != '\n') input
  simp only [List.length_drop]
  omega

theorem ignoreLine_length_lt (input : List Char) (h : input ≠ []) :
    (ignoreLine input).length < input.length := by
  unfold ignoreLine
  have h1 := dropWhile_length_le (fun c => c != '\n') input
  have h2 : 0 < input.length := List.length_pos.mpr h
  simp only [List.length_drop]
  omega

theorem signOf_length_le (s : List Char) : (signOf s).2.length ≤ s.length := by
  unfold signOf
  split <;> simp

/-- The extraction `readInt` spelt out. -/
theorem readInt_eq (input : List Char) :
    readInt input =
      (if (signOf (skipWs input)).2.takeWhile isDigit = [] then
        (none, (signOf (skipWs input)).2.dropWhile isDigit)
      else if INT_MIN ≤ signedValue (signOf (skipWs input)).1
            ((signOf (skipWs input)).2.takeWhile isDigit) ∧
          signedValue (signOf (skipWs input)).1
            ((signOf (skipWs input)).2.takeWhile isDigit) ≤ INT_MAX
        then (some (signedValue (signOf (skipWs input)).1
            ((signOf (skipWs input)).2.takeWhile isDigit)),
          (signOf (skipWs input)).2.dropWhile isDigit)
        else (none, (signOf (skipWs input)).2.dropWhile isDigit)) := by
  rfl

theorem readInt_rest (input : List Char) :
    (readInt input).2 = (signOf (skipWs input)).2.dropWhile isDigit := by
  rw [readInt_eq]
  split_ifs <;> rfl

theorem readInt_length_le (input : List Char) :
    (readInt input).2.length ≤ input.length := by
  rw [readInt_rest]
  have h1 := dropWhile_length_le isDigit (signOf (skipWs input)).2
  have h2 := signOf_length_le (skipWs input)
  have h3 := skipWs_length_le input
  omega

theorem readInt_some_length_lt (input : List Char) (v : Int) (rest : List Char)
    (h : readInt input = (some v, rest)) : rest.length < input.length := by
  have hr : rest = (readInt input).2 := by rw [h]
  have hne : (signOf (skipWs input)).2.takeWhile isDigit ≠ [] := by
    intro hnil
    rw [readInt_eq, if_pos hnil] at h
    simp at h
  rw [hr, readInt_rest]
  have h1 := dropWhile_length_lt isDigit (signOf (skipWs input)).2 hne
  have h2 := signOf_length_le (skipWs input)
  have h3 := skipWs_length_le input
  omega

theorem readInt_some_range (input : List Char) (v : Int) (rest : List Char)
    (h : readInt input = (some v, rest)) : INT_MIN ≤ v ∧ v ≤ INT_MAX := by
  rw [readInt_eq] at h
  split_ifs at h with h1 h2
  · simp at h
  · simp only [Prod.mk.injEq, Option.some.injEq] at h
    rw [← h.1]
    exact h2
  · simp at h

/-- After a failed extraction and `ignore`, less input is left (unless the
input was empty already). -/
theorem retry_length_lt (input : List Char) (h : input ≠ []) (rest : List Char)
    (hr : rest.length ≤ input.length) : (ignoreLine rest).length < input.length := by
  by_cases hrest : rest = []
  · subst hrest
    have : 0 < input.length := List.length_pos.mpr h
    simpa [ignoreLine] using this
  · have := ignoreLine_length_lt rest hrest
    omega

theorem readChar_none_rest (input rest : List Char) (h : readChar input = (none, rest)) :
    rest = [] := by
  unfold readChar at h
  split at h <;> simp at h
  exact h

theorem readChar_some_length_lt (input : List Char) (c : Char) (rest : List Char)
    (h : readChar input = (some c, rest)) : rest.length < input.length := by
  unfold readChar at h
  have h3 := skipWs_length_le input
  split at h
  · simp at h
  · rename_i c2 t heq
    simp only [Prod.mk.injEq, Option.some.injEq] at h
    rw [heq] at h3
    rw [← h.2]
    simp only [List.length_cons] at h3
    omega

theorem isSpace_of_isDigit (c : Char) (h : isDigit c = true) : isSpace c = false := by
  cases hs : isSpace c with
  | false => rfl
  | true =>
    exfalso
    simp only [isSpace, Bool.or_eq_true, decide_eq_true_eq] at hs
    rcases hs with ((((hs | hs) | hs) | hs) | hs) | hs <;> subst hs <;> revert h <;> decide

theorem takeWhile_isDigit_token (ds rest : List Char) (hd : ∀ d ∈ ds, isDigit d = true)
    (hrest : ∀ c ∈ rest.head?, isDigit c = false) :
    (ds ++ rest).takeWhile isDigit = ds := by
  rw [List.takeWhile_append_of_pos hd]
  cases rest with
  | nil => simp
  | cons c t =>
    have hc : isDigit c = false := hrest c (by simp)
    simp [List.takeWhile, hc]

theorem dropWhile_isDigit_token (ds rest : List Char) (hd : ∀ d ∈ ds, isDigit d = true)
    (hrest : ∀ c ∈ rest.head?, isDigit c = false) :
    (ds ++ rest).dropWhile isDigit = rest := by
  rw [List.dropWhile_append_of_pos hd]
  cases rest with
  | nil => simp
  | cons c t =>
    have hc : isDigit c = false := hrest c (by simp)
    simp [List.dropWhile, hc]

theorem signOf_digit (d : Char) (rest : List Char) (h : isDigit d = true) :
    signOf (d :: rest) = (false, d :: rest) := by
  unfold signOf
  split
  · rename_i heq
    simp only [List.cons.injEq] at heq
    rw [heq.1] at h
    exact absurd h (by decide)
  · rename_i heq
    simp only [List.cons.injEq] at heq
    rw [heq.1] at h
    exact absurd h (by decide)
  · rfl

/-- The extraction of an integer token that fits in `int`: its value, and
the input after the token. -/
theorem readInt_token (ws ds rest : List Char) (negative : Bool)
    (hws : ∀ w ∈ ws, isSpace w = true) (hds : ds ≠ [])
    (hd : ∀ d ∈ ds, isDigit d = true) (hrest : ∀ c ∈ rest.head?, isDigit c = false)
    (hrange : INT_MIN ≤ signedValue negative ds ∧ signedValue negative ds ≤ INT_MAX) :
    readInt (ws ++ intToken negative ds ++ rest) = (some (signedValue negative ds), rest) := by
  obtain ⟨d, t, hdt⟩ := List.exists_cons_of_ne_nil hds
  have hdd : isDigit d = true := hd d (by rw [hdt]; exact List.mem_cons_self _ _)
  have hsign : signOf (skipWs (ws ++ intToken negative ds ++ rest)) = (negative, ds ++ rest) := by
    cases negative with
    | true =>
      have h1 : ws ++ intToken true ds ++ rest = ws ++ '-' :: (ds ++ rest) := by
        simp [intToken]
      rw [h1, skipWs_append_cons ws '-' (ds ++ rest) hws (by decide)]
      rfl
    | false =>
      have h1 : ws ++ intToken false ds ++ rest = ws ++ d :: (t ++ rest) := by
        simp [intToken, hdt]
      rw [h1, skipWs_append_cons ws d (t ++ rest) hws (isSpace_of_isDigit d hdd)]
      rw [signOf_digit d (t ++ rest) hdd]
      simp [hdt]
  rw [readInt_eq, hsign]
  simp only [takeWhile_isDigit_token ds rest hd hrest, dropWhile_isDigit_token ds rest hd hrest]
  rw [if_neg hds, if_pos hrange]

theorem printMenu_no_message (options : List String) :
    ∀ (i : Nat) (o : Out), o ∈ printMenu i options → o.isMessage = false := by
  induction options with
  | nil => intro i o h; simp [printMenu] at h
  | cons x xs ih =>
    intro i o h
    simp only [printMenu, List.mem_cons] at h
    rcases h with h | h
    · subst h; rfl
    · exact ih (i + 1) o h

@[simp]
theorem Run.after_status {α : Type} (pre : List Out) (r : Run α) :
    (Run.after pre r).status = r.status := rfl

@[simp]
theorem Run.after_out {α : Type} (pre : List Out) (r : Run α) :
    (Run.after pre r).out = pre ++ r.out := rfl

@[simp]
theorem Run.after_rest {α : Type} (pre : List Out) (r : Run α) :
    (Run.after pre r).rest = r.rest := rfl

/-! ## Fuel: more than the length of the input is always enough -/

theorem menuLoop_fuel (n : Nat) (prompt errorInvalid : String) :
    ∀ (f1 f2 : Nat) (input : List Char), input.length < f1 → input.length < f2 →
      menuLoop n prompt errorInvalid f1 input = menuLoop n prompt errorInvalid f2 input := by
  intro f1
  induction f1 with
  | zero => intro f2 input h1; omega
  | succ a ih =>
    intro f2 input h1 h2
    cases f2 with
    | zero => omega
    | succ b =>
      have hle := readInt_length_le input
      unfold menuLoop
      cases hread : readInt input with
      | mk o rest =>
        rw [hread] at hle
        cases o with
        | none =>
          by_cases hin : input = []
          · simp [hin]
          · have hlt := retry_length_lt input hin rest hle
            simp only [hin, if_false]
            rw [ih b (ignoreLine rest) (by omega) (by omega)]
        | some v =>
          have hlt := readInt_some_length_lt input v rest hread
          have hlt2 := ignoreLine_length_le rest
          simp only
          split_ifs
          · rfl
          · rw [ih b (ignoreLine rest) (by omega) (by omega)]

theorem getIntLoop_fuel (prompt : String) (max min : Int)
    (errorInvalid errorTooBig errorTooSmall : String) :
    ∀ (f1 f2 : Nat) (input : List Char), input.length < f1 → input.length < f2 →
      getIntLoop prompt max min errorInvalid errorTooBig errorTooSmall f1 input =
        getIntLoop prompt max min errorInvalid errorTooBig errorTooSmall f2 input := by
  intro f1
  induction f1 with
  | zero => intro f2 input h1; omega
  | succ a ih =>
    intro f2 input h1 h2
    cases f2 with
    | zero => omega
    | succ b =>
      have hle := readInt_length_le input
      unfold getIntLoop
      cases hread : readInt input with
      | mk o rest =>
        rw [hread] at hle
        cases o with
        | none =>
          by_cases hin : input = []
          · simp [hin]
          · have hlt := retry_length_lt input hin rest hle
            simp only [hin, if_false]
            rw [ih b (ignoreLine rest) (by omega) (by omega)]
        | some v =>
          have hlt := readInt_some_length_lt input v rest hread
          simp only
          split_ifs
          · rw [ih b rest (by omega) (by omega)]
          · rw [ih b rest (by omega) (by omega)]
          · rfl

theorem getCharLoop_fuel (prompt : String) (valid_chars : List Char)
    (errorInvalid errorNotInList : String) :
    ∀ (f1 f2 : Nat) (input : List Char), input.length < f1 → input.length < f2 →
      getCharLoop prompt valid_chars errorInvalid errorNotInList f1 input =
        getCharLoop prompt valid_chars errorInvalid errorNotInList f2 input := by
  intro f1
  induction f1 with
  | zero => intro f2 input h1; omega
  | succ a ih =>
    intro f2 input h1 h2
    cases f2 with
    | zero => omega
    | succ b =>
      unfold getCharLoop
      cases hread : readChar input with
      | mk o rest =>
        cases o with
        | none =>
          have hr := readChar_none_rest input rest hread
          subst hr
          by_cases hin : input = []
          · simp [hin]
          · have hpos : 0 < input.length := List.length_pos.mpr hin
            simp only [hin, if_false]
            rw [ih b (ignoreLine []) (by simp [ignoreLine]; omega) (by simp [ignoreLine]; omega)]
        | some c =>
          have hlt := readChar_some_length_lt input c rest hread
          simp only
          split_ifs
          · rw [ih b rest (by omega) (by omega)]
          · rfl

theorem menuLoop_not_outOfFuel (n : Nat) (prompt errorInvalid : String) :
    ∀ (fuel : Nat) (input : List Char), input.length < fuel →
      (menuLoop n prompt errorInvalid fuel input).status ≠ Status.outOfFuel := by
  intro fuel
  induction fuel with
  | zero => intro input h; omega
  | succ f ih =>
    intro input h
    have hle := readInt_length_le input
    unfold menuLoop
    cases hread : readInt input with
    | mk o rest =>
      rw [hread] at hle
      cases o with
      | none =>
        by_cases hin : input = []
        · simp [hin]
        · have hlt := retry_length_lt input hin rest hle
          simp only [hin, if_false, Run.after_status]
          exact ih _ (by omega)
      | some v =>
        have hlt := readInt_some_length_lt input v rest hread
        have hlt2 := ignoreLine_length_le rest
        simp only
        split_ifs
        · simp
        · simp only [Run.after_status]
          exact ih _ (by omega)

theorem getIntLoop_not_outOfFuel (prompt : String) (max min : Int)
    (errorInvalid errorTooBig errorTooSmall : String) :
    ∀ (fuel : Nat) (input : List Char), input.length < fuel →
      (getIntLoop prompt max min errorInvalid errorTooBig errorTooSmall fuel input).status ≠
        Status.outOfFuel := by
  intro fuel
  induction fuel with
  | zero => intro input h; omega
  | succ f ih =>
    intro input h
    have hle := readInt_length_le input
    unfold getIntLoop
    cases hread : readInt input with
    | mk o rest =>
      rw [hread] at hle
      cases o with
      | none =>
        by_cases hin : input = []
        · simp [hin]
        · have hlt := retry_length_lt input hin rest hle
          simp only [hin, if_false, Run.after_status]
          exact ih _ (by omega)
      | some v =>
        have hlt := readInt_some_length_lt input v rest hread
        simp only
        split_ifs
        · simp only [Run.after_status]
          exact ih _ (by omega)
        · simp only [Run.after_status]
          exact ih _ (by omega)
        · simp

theorem getCharLoop_not_outOfFuel (prompt : String) (valid_chars : List Char)
    (errorInvalid errorNotInList : String) :
    ∀ (fuel : Nat) (input : List Char), input.length < fuel →
      (getCharLoop prompt valid_chars errorInvalid errorNotInList fuel input).status ≠
        Status.outOfFuel := by
  intro fuel
  induction fuel with
  | zero => intro input h; omega
  | succ f ih =>
    intro input h
    unfold getCharLoop
    cases hread : readChar input with
    | mk o rest =>
      cases o with
      | none =>
        have hr := readChar_none_rest input rest hread
        subst hr
        by_cases hin : input = []
        · simp [hin]
        · have hpos : 0 < input.length := List.length_pos.mpr hin
          simp only [hin, if_false, Run.after_status]
          exact ih _ (by simp [ignoreLine]; omega)
      | some c =>
        have hlt := readChar_some_length_lt input c rest hread
        simp only
        split_ifs
        · simp only [Run.after_status]
          exact ih _ (by omega)
        · simp

/-- The entry points never run out of fuel: each call ends by returning, by
failing an assertion, or by re-prompting for ever at the end of the input. -/
theorem entry_points_total (options : List String) (prompt errorInvalid : String)
    (max min : Int) (errorTooBig errorTooSmall : String) (valid_chars : List Char)
    (errorNotInList : String) (input : List Char) :
    (menuSelection options prompt errorInvalid input).status ≠ Status.outOfFuel ∧
      (getIntSelective prompt max min errorInvalid errorTooBig errorTooSmall input).status ≠
        Status.outOfFuel ∧
      (getCharSelective prompt valid_chars errorInvalid errorNotInList input).status ≠
        Status.outOfFuel := by
  refine ⟨?_, ?_, ?_⟩
  · unfold menuSelection
    split_ifs
    · simp only [Run.after_status]
      exact menuLoop_not_outOfFuel _ _ _ _ _ (by omega)
    · simp
  · unfold getIntSelective
    split_ifs
    · exact getIntLoop_not_outOfFuel _ _ _ _ _ _ _ _ (by omega)
    · simp
  · exact getCharLoop_not_outOfFuel _ _ _ _ _ _ (by omega)

/-! ## Extraction from a line -/

theorem readInt_skip (ws input : List Char) (hws : ∀ w ∈ ws, isSpace w = true) :
    readInt (ws ++ input) = readInt input := by
  have h : skipWs (ws ++ input) = skipWs input := by
    unfold skipWs
    exact List.dropWhile_append_of_pos hws
  rw [readInt_eq, readInt_eq, h]

theorem skipWs_append_of_ne_nil (e s : List Char) (h : skipWs e ≠ []) :
    skipWs (e ++ s) = skipWs e ++ s := by
  induction e with
  | nil => exact absurd rfl h
  | cons c t ih =>
    cases hc : isSpace c with
    | true =>
      have h1 : skipWs (c :: t) = skipWs t := by simp [skipWs, List.dropWhile, hc]
      have h2 : skipWs (c :: t ++ s) = skipWs (t ++ s) := by
        simp [skipWs, List.dropWhile, hc]
      rw [h1] at h
      rw [h1, h2, ih h]
    | false =>
      simp [skipWs, List.dropWhile, hc]

theorem signOf_append (t s : List Char) (h : t ≠ []) :
    signOf (t ++ s) = ((signOf t).1, (signOf t).2 ++ s) := by
  cases t with
  | nil => exact absurd rfl h
  | cons c u =>
    by_cases h1 : c = '-'
    · subst h1; rfl
    · by_cases h2 : c = '+'
      · subst h2; rfl
      · have e1 : ∀ r : List Char, signOf (c :: r) = (false, c :: r) := by
          intro r
          unfold signOf
          split
          · rename_i heq
            simp only [List.cons.injEq] at heq
            exact absurd heq.1 h1
          · rename_i heq
            simp only [List.cons.injEq] at heq
            exact absurd heq.1 h2
          · rfl
        rw [List.cons_append, e1, e1]
        rfl

theorem takeWhile_isDigit_line (u more : List Char) :
    (u ++ '\n' :: more).takeWhile isDigit = u.takeWhile isDigit := by
  induction u with
  | nil =>
    have : isDigit '\n' = false := by decide
    simp [List.takeWhile, this]
  | cons c t ih =>
    cases hc : isDigit c with
    | true => simp [List.takeWhile, hc, ih]
    | false => simp [List.takeWhile, hc]

theorem dropWhile_isDigit_line (u more : List Char) :
    (u ++ '\n' :: more).dropWhile isDigit = u.dropWhile isDigit ++ '\n' :: more := by
  induction u with
  | nil =>
    have : isDigit '\n' = false := by decide
    simp [List.dropWhile, this]
  | cons c t ih =>
    cases hc : isDigit c with
    | true => simp [List.dropWhile, hc, ih]
    | false => simp [List.dropWhile, hc]

theorem nonBlankLine_skipWs (e : List Char) (h : nonBlankLine e = true) : skipWs e ≠ [] := by
  unfold nonBlankLine at h
  simp only [Bool.and_eq_true, List.any_eq_true] at h
  obtain ⟨_, c, hc, hsp⟩ := h
  intro hnil
  unfold skipWs at hnil
  rw [List.dropWhile_eq_nil_iff] at hnil
  have := hnil c hc
  simp [this] at hsp

theorem nonBlankLine_ne_nil (e : List Char) (h : nonBlankLine e = true) : e ≠ [] := by
  intro hnil
  subst hnil
  simp [nonBlankLine] at h

theorem nonBlankLine_no_newline (e : List Char) (h : nonBlankLine e = true) :
    ∀ c ∈ e, c ≠ '\n' := by
  unfold nonBlankLine at h
  simp only [Bool.and_eq_true, List.all_eq_true] at h
  intro c hc
  simpa using h.1 c hc

theorem readInt_rest_subset (e : List Char) : ∀ c ∈ (readInt e).2, c ∈ e := by
  intro c hc
  rw [readInt_rest] at hc
  have h1 := List.dropWhile_subset isDigit hc
  have h2 : ∀ (s : List Char), ∀ x ∈ (signOf s).2, x ∈ s := by
    intro s x hx
    unfold signOf at hx
    split at hx
    · exact List.mem_cons_of_mem _ hx
    · exact List.mem_cons_of_mem _ hx
    · exact hx
  have h3 := h2 _ c h1
  unfold skipWs at h3
  exact List.dropWhile_subset isSpace h3

/-- Extraction from an entry followed by a newline reads what it reads from
the entry alone, and leaves the newline and what follows it. -/
theorem readInt_line (e more : List Char) (h : nonBlankLine e = true) :
    readInt (e ++ '\n' :: more) = ((readInt e).1, (readInt e).2 ++ '\n' :: more) := by
  have hs := nonBlankLine_skipWs e h
  have h1 : signOf (skipWs (e ++ '\n' :: more)) =
      ((signOf (skipWs e)).1, (signOf (skipWs e)).2 ++ '\n' :: more) := by
    rw [skipWs_append_of_ne_nil e _ hs, signOf_append _ _ hs]
  rw [readInt_eq, readInt_eq, h1]
  simp only [takeWhile_isDigit_line, dropWhile_isDigit_line]
  split_ifs <;> rfl

theorem ignoreLine_line (r more : List Char) (h : ∀ c ∈ r, c ≠ '\n') :
    ignoreLine (r ++ '\n' :: more) = more := by
  induction r with
  | nil => simp [ignoreLine, List.dropWhile]
  | cons c t ih =>
    have hc : (c != '\n') = true := by simpa using h c (List.mem_cons_self _ _)
    have ht := ih (fun x hx => h x (List.mem_cons_of_mem _ hx))
    unfold ignoreLine at ht ⊢
    have hd : List.dropWhile (fun c => c != '\n') (c :: (t ++ '\n' :: more)) =
        List.dropWhile (fun c => c != '\n') (t ++ '\n' :: more) :=
      List.dropWhile_cons_of_pos hc
    rw [List.cons_append, hd]
    exact ht

/-- After a failed or rejected extraction from an entry, `ignore` leaves the
input that follows the entry and its newline. -/
theorem ignoreLine_after_entry (e more : List Char) (h : nonBlankLine e = true) :
    ignoreLine ((readInt e).2 ++ '\n' :: more) = more :=
  ignoreLine_line _ _ (fun c hc => nonBlankLine_no_newline e h c (readInt_rest_subset e c hc))

/-! ## One iteration of each loop, at the fuel of the entry points -/

theorem readChar_token (ws : List Char) (c : Char) (rest : List Char)
    (hws : ∀ w ∈ ws, isSpace w = true) (hc : isSpace c = false) :
    readChar (ws ++ c :: rest) = (some c, rest) := by
  unfold readChar
  rw [skipWs_append_cons ws c rest hws hc]

theorem getCharLoop_accept (prompt : String) (valid_chars : List Char)
    (errorInvalid errorNotInList : String) (input : List Char) (c : Char) (rest : List Char)
    (hread : readChar input = (some c, rest)) (hok : valid_chars = [] ∨ c ∈ valid_chars) :
    getCharLoop prompt valid_chars errorInvalid errorNotInList (input.length + 1) input =
      ⟨Status.returned c, [Out.prompt prompt], rest⟩ := by
  unfold getCharLoop
  rw [hread]
  simp only
  rw [if_neg]
  rintro ⟨h1, h2⟩
  rcases hok with h | h
  · rw [h] at h1; exact h1 rfl
  · exact h2 h

theorem getCharLoop_reject (prompt : String) (valid_chars : List Char)
    (errorInvalid errorNotInList : String) (input : List Char) (c : Char) (rest : List Char)
    (hread : readChar input = (some c, rest)) (hne : valid_chars ≠ [])
    (hc : c ∉ valid_chars) :
    getCharLoop prompt valid_chars errorInvalid errorNotInList (input.length + 1) input =
      Run.after [Out.prompt prompt, Out.message errorNotInList]
        (getCharLoop prompt valid_chars errorInvalid errorNotInList (rest.length + 1) rest) := by
  have hlt := readChar_some_length_lt input c rest hread
  conv => lhs; unfold getCharLoop
  rw [hread]
  simp only
  rw [if_pos ⟨by simpa using hne, hc⟩]
  rw [getCharLoop_fuel prompt valid_chars errorInvalid errorNotInList input.length
    (rest.length + 1) rest hlt (by omega)]

theorem menuLoop_accept (n : Nat) (prompt errorInvalid : String) (input : List Char)
    (v : Int) (rest : List Char) (hread : readInt input = (some v, rest))
    (hv : 0 < v ∧ v ≤ (n : Int)) :
    menuLoop n prompt errorInvalid (input.length + 1) input =
      ⟨Status.returned (v - 1), [Out.prompt prompt], rest⟩ := by
  unfold menuLoop
  rw [hread]
  simp only
  rw [if_pos hv]

theorem menuLoop_reject (n : Nat) (prompt errorInvalid : String) (input : List Char)
    (o : Option Int) (rest : List Char) (hread : readInt input = (o, rest))
    (hin : input ≠ []) (ho : ∀ v, o = some v → ¬(0 < v ∧ v ≤ (n : Int))) :
    menuLoop n prompt errorInvalid (input.length + 1) input =
      Run.after [Out.prompt prompt, Out.message errorInvalid]
        (menuLoop n prompt errorInvalid ((ignoreLine rest).length + 1) (ignoreLine rest)) := by
  have hle := readInt_length_le input
  rw [hread] at hle
  have hlt := retry_length_lt input hin rest hle
  conv => lhs; unfold menuLoop
  rw [hread]
  cases o with
  | none =>
    simp only
    rw [if_neg hin, menuLoop_fuel n prompt errorInvalid input.length
      ((ignoreLine rest).length + 1) (ignoreLine rest) hlt (by omega)]
  | some v =>
    simp only
    rw [if_neg (ho v rfl), menuLoop_fuel n prompt errorInvalid input.length
      ((ignoreLine rest).length + 1) (ignoreLine rest) hlt (by omega)]

theorem getIntLoop_accept (prompt : String) (max min : Int)
    (errorInvalid errorTooBig errorTooSmall : String) (input : List Char)
    (v : Int) (rest : List Char) (hread : readInt input = (some v, rest))
    (hv : min ≤ v ∧ v ≤ max) :
    getIntLoop prompt max min errorInvalid errorTooBig errorTooSmall (input.length + 1) input =
      ⟨Status.returned v, [Out.prompt prompt], rest⟩ := by
  unfold getIntLoop
  rw [hread]
  simp only
  rw [if_neg (by omega), if_neg (by omega)]

theorem getIntLoop_invalid (prompt : String) (max min : Int)
    (errorInvalid errorTooBig errorTooSmall : String) (input : List Char)
    (rest : List Char) (hread : readInt input = (none, rest)) (hin : input ≠ []) :
    getIntLoop prompt max min errorInvalid errorTooBig errorTooSmall (input.length + 1) input =
      Run.after [Out.prompt prompt, Out.message errorInvalid]
        (getIntLoop prompt max min errorInvalid errorTooBig errorTooSmall
          ((ignoreLine rest).length + 1) (ignoreLine rest)) := by
  have hle := readInt_length_le input
  rw [hread] at hle
  have hlt := retry_length_lt input hin rest hle
  conv => lhs; unfold getIntLoop
  rw [hread]
  simp only
  rw [if_neg hin, getIntLoop_fuel prompt max min errorInvalid errorTooBig errorTooSmall
    input.length ((ignoreLine rest).length + 1) (ignoreLine rest) hlt (by omega)]

theorem getIntLoop_tooBig (prompt : String) (max min : Int)
    (errorInvalid errorTooBig errorTooSmall : String) (input : List Char)
    (v : Int) (rest : List Char) (hread : readInt input = (some v, rest)) (hv : v > max) :
    getIntLoop prompt max min errorInvalid errorTooBig errorTooSmall (input.length + 1) input =
      Run.after [Out.prompt prompt, Out.message errorTooBig]
        (getIntLoop prompt max min errorInvalid errorTooBig errorTooSmall
          (rest.length + 1) rest) := by
  have hlt := readInt_some_length_lt input v rest hread
  conv => lhs; unfold getIntLoop
  rw [hread]
  simp only
  rw [if_pos hv, getIntLoop_fuel prompt max min errorInvalid errorTooBig errorTooSmall
    input.length (rest.length + 1) rest hlt (by omega)]

theorem getIntLoop_tooSmall (prompt : String) (max min : Int)
    (errorInvalid errorTooBig errorTooSmall : String) (input : List Char)
    (v : Int) (rest : List Char) (hread : readInt input = (some v, rest))
    (hv1 : ¬(v > max)) (hv2 : v < min) :
    getIntLoop prompt max min errorInvalid errorTooBig errorTooSmall (input.length + 1) input =
      Run.after [Out.prompt prompt, Out.message errorTooSmall]
        (getIntLoop prompt max min errorInvalid errorTooBig errorTooSmall
          (rest.length + 1) rest) := by
  have hlt := readInt_some_length_lt input v rest hread
  conv => lhs; unfold getIntLoop
  rw [hread]
  simp only
  rw [if_neg hv1, if_pos hv2, getIntLoop_fuel prompt max min errorInvalid errorTooBig
    errorTooSmall input.length (rest.length + 1) rest hlt (by omega)]

/-! ## menuSelection: a valid first entry -/

/-- C1: for an option list of length `n` with `2 ≤ n ≤ 9` and an input whose
first entry (after optional whitespace) is a run of digits of value `k` with
`1 ≤ k ≤ n`, `menuSelection` returns `k - 1`, which is a valid 0-based index
into the options, after printing the menu and one prompt: no invalid-entry
message is written. -/
theorem menuSelection_valid_first_entry (options : List String)
    (prompt errorInvalid : String) (ws ds rest : List Char)
    (hn : 2 ≤ options.length ∧ options.length ≤ 9)
    (hws : ∀ w ∈ ws, isSpace w = true) (hds : ds ≠ [])
    (hd : ∀ d ∈ ds, isDigit d = true) (hrest : ∀ c ∈ rest.head?, isDigit c = false)
    (hk : 1 ≤ digitsValue ds ∧ digitsValue ds ≤ options.length) :
    menuSelection options prompt errorInvalid (ws ++ ds ++ rest) =
        ⟨Status.returned ((digitsValue ds : Int) - 1),
          printMenu 0 options ++ [Out.prompt prompt], rest⟩ ∧
      0 ≤ (digitsValue ds : Int) - 1 ∧ (digitsValue ds : Int) - 1 < options.length ∧
      ∀ o ∈ (menuSelection options prompt errorInvalid (ws ++ ds ++ rest)).out,
        o.isMessage = false := by
  have hrange : INT_MIN ≤ signedValue false ds ∧ signedValue false ds ≤ INT_MAX := by
    simp only [signedValue, INT_MIN, INT_MAX]
    constructor <;> simp <;> omega
  have hread := readInt_token ws ds rest false hws hds hd hrest hrange
  simp only [intToken, signedValue, Bool.false_eq_true, if_false] at hread
  have hrun : menuSelection options prompt errorInvalid (ws ++ ds ++ rest) =
      ⟨Status.returned ((digitsValue ds : Int) - 1),
        printMenu 0 options ++ [Out.prompt prompt], rest⟩ := by
    unfold menuSelection
    rw [if_pos (by omega)]
    unfold menuLoop
    rw [hread]
    simp only
    rw [if_pos (by constructor <;> omega)]
    rfl
  refine ⟨hrun, by omega, by omega, ?_⟩
  rw [hrun]
  intro o ho
  simp only [List.mem_append, List.mem_singleton] at ho
  rcases ho with ho | ho
  · exact printMenu_no_message options 0 o ho
  · subst ho; rfl

/-- Instance of C1: options "Option A", "Option B", "Option C" and input "2"
give index 1. -/
theorem menuSelection_valid_first_entry_witness :
    (2 ≤ ["Option A", "Option B", "Option C"].length ∧
      ["Option A", "Option B", "Option C"].length ≤ 9) ∧
    (1 ≤ digitsValue ['2'] ∧ digitsValue ['2'] ≤ ["Option A", "Option B", "Option C"].length) ∧
    menuSelection ["Option A", "Option B", "Option C"] "Select an option: "
        "Please enter a valid option!" ['2'] =
      ⟨Status.returned 1, [Out.menuItem 1 "Option A", Out.menuItem 2 "Option B",
        Out.menuItem 3 "Option C", Out.prompt "Select an option: "], []⟩ :=
  ⟨by decide, by decide,
    (menuSelection_valid_first_entry ["Option A", "Option B", "Option C"] "Select an option: "
      "Please enter a valid option!" [] ['2'] [] (by decide) (by simp) (by simp) (by decide)
      (by simp) (by decide)).1⟩

/-! ## menuSelection: entries rejected before the valid one -/

theorem menuLoop_entries (n : Nat) (prompt errorInvalid : String) (accepted : List Char)
    (k : Int) (more : List Char) (hacc : nonBlankLine accepted = true)
    (hk : leadingInt accepted = some k) (hrange : 1 ≤ k ∧ k ≤ (n : Int)) :
    ∀ rejected : List (List Char),
      (∀ e ∈ rejected, nonBlankLine e = true ∧
        ∀ v, leadingInt e = some v → v < 1 ∨ (n : Int) < v) →
      menuLoop n prompt errorInvalid
          (((rejected.flatMap fun e => e ++ ['\n']) ++ (accepted ++ '\n' :: more)).length + 1)
          ((rejected.flatMap fun e => e ++ ['\n']) ++ (accepted ++ '\n' :: more)) =
        ⟨Status.returned (k - 1),
          (rejected.flatMap fun _ => [Out.prompt prompt, Out.message errorInvalid]) ++
            [Out.prompt prompt],
          (readInt accepted).2 ++ '\n' :: more⟩ := by
  intro rejected
  induction rejected with
  | nil =>
    intro _
    have hread : readInt (accepted ++ '\n' :: more) =
        (some k, (readInt accepted).2 ++ '\n' :: more) := by
      rw [readInt_line accepted more hacc]
      unfold leadingInt at hk
      rw [hk]
    exact menuLoop_accept n prompt errorInvalid _ k _ hread ⟨by omega, hrange.2⟩
  | cons e tl ih =>
    intro hrej
    obtain ⟨h1, h2⟩ := hrej e (List.mem_cons_self _ _)
    have htl := ih (fun x hx => hrej x (List.mem_cons_of_mem _ hx))
    have hin : ((e :: tl).flatMap fun e => e ++ ['\n']) ++ (accepted ++ '\n' :: more) =
        e ++ '\n' :: ((tl.flatMap fun e => e ++ ['\n']) ++ (accepted ++ '\n' :: more)) := by
      simp [List.flatMap_cons]
    have hne : e ++ '\n' :: ((tl.flatMap fun e => e ++ ['\n']) ++ (accepted ++ '\n' :: more))
        ≠ [] := by simp
    rw [hin, menuLoop_reject n prompt errorInvalid _ _ _ (readInt_line e _ h1) hne
      (fun v hv => by have := h2 v hv; omega),
      ignoreLine_after_entry e _ h1, htl]
    simp [Run.after, List.flatMap_cons]

theorem menuLoop_all_rejected (n : Nat) (prompt errorInvalid : String) :
    ∀ rejected : List (List Char),
      (∀ e ∈ rejected, nonBlankLine e = true ∧
        ∀ v, leadingInt e = some v → v < 1 ∨ (n : Int) < v) →
      menuLoop n prompt errorInvalid ((rejected.flatMap fun e => e ++ ['\n']).length + 1)
          (rejected.flatMap fun e => e ++ ['\n']) =
        ⟨Status.neverReturns,
          (rejected.flatMap fun _ => [Out.prompt prompt, Out.message errorInvalid]) ++
            [Out.prompt prompt, Out.message errorInvalid],
          []⟩ := by
  intro rejected
  induction rejected with
  | nil =>
    intro _
    have hread : readInt [] = (none, []) := by decide
    simp only [List.flatMap_nil, List.length_nil, List.nil_append]
    unfold menuLoop
    rw [hread]
    simp
  | cons e tl ih =>
    intro hrej
    obtain ⟨h1, h2⟩ := hrej e (List.mem_cons_self _ _)
    have htl := ih (fun x hx => hrej x (List.mem_cons_of_mem _ hx))
    have hin : ((e :: tl).flatMap fun e => e ++ ['\n']) =
        e ++ '\n' :: (tl.flatMap fun e => e ++ ['\n']) := by
      simp [List.flatMap_cons]
    have hne : e ++ '\n' :: (tl.flatMap fun e => e ++ ['\n']) ≠ [] := by simp
    rw [hin, menuLoop_reject n prompt errorInvalid _ _ _ (readInt_line e _ h1) hne
      (fun v hv => by have := h2 v hv; omega),
      ignoreLine_after_entry e _ h1, htl]
    simp [Run.after, List.flatMap_cons]

theorem ignoreLine_suffix (input : List Char) : ignoreLine input <:+ input := by
  unfold ignoreLine
  exact (List.drop_suffix 1 _).trans (List.dropWhile_suffix _)

theorem signOf_suffix (s : List Char) : (signOf s).2 <:+ s := by
  unfold signOf
  split
  · exact List.suffix_cons _ _
  · exact List.suffix_cons _ _
  · exact List.suffix_refl _

theorem readInt_suffix (input : List Char) : (readInt input).2 <:+ input := by
  rw [readInt_rest]
  exact ((List.dropWhile_suffix isDigit).trans (signOf_suffix _)).trans
    (List.dropWhile_suffix isSpace)

/-- A value that the loop of `menuSelection` returns is `k - 1` for an integer
`k` of `[1, n]` extracted at some point of the input, and the input left is
what follows that integer. -/
theorem menuLoop_returned_at (n : Nat) (prompt errorInvalid : String) :
    ∀ (fuel : Nat) (input : List Char) (v : Int),
      (menuLoop n prompt errorInvalid fuel input).status = Status.returned v →
      ∃ s : List Char, s <:+ input ∧
        readInt s = (some (v + 1), (menuLoop n prompt errorInvalid fuel input).rest) ∧
        1 ≤ v + 1 ∧ v + 1 ≤ (n : Int) := by
  intro fuel
  induction fuel with
  | zero => intro input v h; simp [menuLoop] at h
  | succ f ih =>
    intro input v h
    have hsuf := readInt_suffix input
    unfold menuLoop at h ⊢
    cases hread : readInt input with
    | mk o rest =>
      rw [hread] at h hsuf
      cases o with
      | none =>
        simp only at h ⊢
        split_ifs at h ⊢ with hin
        obtain ⟨s, hs, hrd, hlo, hhi⟩ := ih (ignoreLine rest) v (by simpa using h)
        exact ⟨s, hs.trans ((ignoreLine_suffix rest).trans hsuf), by simpa using hrd, hlo, hhi⟩
      | some w =>
        simp only at h ⊢
        split_ifs at h ⊢ with hw
        · simp only [Status.returned.injEq] at h
          subst h
          refine ⟨input, List.suffix_refl _, ?_, by omega, by omega⟩
          rw [hread]
          simp
        · obtain ⟨s, hs, hrd, hlo, hhi⟩ := ih (ignoreLine rest) v (by simpa using h)
          exact ⟨s, hs.trans ((ignoreLine_suffix rest).trans hsuf), by simpa using hrd,
            hlo, hhi⟩

/-- Counterexample to C2: over three options the entry "2x", which is not an
integer, is not rejected: `menuSelection` returns 1 at it, with no error
line; and a blank entry before the entry "2" writes no error line either. -/
theorem menuSelection_entries_counterexample :
    isIntegerText ['2', 'x'] = false ∧
    menuSelection ["Option A", "Option B", "Option C"] "Select an option: "
        "Please enter a valid option!" ['2', 'x', '\n'] =
      ⟨Status.returned 1, [Out.menuItem 1 "Option A", Out.menuItem 2 "Option B",
        Out.menuItem 3 "Option C", Out.prompt "Select an option: "], ['x', '\n']⟩ ∧
    menuSelection ["Option A", "Option B", "Option C"] "Select an option: "
        "Please enter a valid option!" ['\n', '2', '\n'] =
      ⟨Status.returned 1, [Out.menuItem 1 "Option A", Out.menuItem 2 "Option B",
        Out.menuItem 3 "Option C", Out.prompt "Select an option: "], ['\n']⟩ := by
  decide

/-- C2 (amended): over an option list of length `n` in `[2, 9]`, for every
sequence of non-blank entries given one per line, each entry at which the
integer extraction fails (it does not start with an integer, or with one
that does not fit in `int`) or whose leading integer is outside `[1, n]`
makes `menuSelection` write `errorInvalid` once and prompt again, without
returning, the rest of its line being discarded; the function returns only at
the first entry whose leading integer `k` is in `[1, n]`, whatever follows
`k` on that line, with `k - 1`.  In three parts: (1) after the rejected entries
the first such entry returns `k - 1`, with one error line per rejected entry;
(2) while every entry is rejected the function does not return: at the end of
such an input it has written one error line per entry and re-prompts for
ever; (3) on any input whatsoever, a value `v` that is returned is a valid
index, `0 ≤ v < n`, and `v + 1` is an integer of `[1, n]` extracted from the
input at the point where the call returned. -/
theorem menuSelection_rejects_until_valid (options : List String)
    (prompt errorInvalid : String)
    (hn : 2 ≤ options.length ∧ options.length ≤ 9) :
    (∀ (rejected : List (List Char)) (accepted : List Char) (k : Int) (more : List Char),
        (∀ e ∈ rejected, nonBlankLine e = true ∧
          ∀ v, leadingInt e = some v → v < 1 ∨ (options.length : Int) < v) →
        nonBlankLine accepted = true → leadingInt accepted = some k →
        1 ≤ k ∧ k ≤ (options.length : Int) →
        menuSelection options prompt errorInvalid
            ((rejected.flatMap fun e => e ++ ['\n']) ++ (accepted ++ '\n' :: more)) =
          ⟨Status.returned (k - 1),
            printMenu 0 options ++
              ((rejected.flatMap fun _ => [Out.prompt prompt, Out.message errorInvalid]) ++
                [Out.prompt prompt]),
            (readInt accepted).2 ++ '\n' :: more⟩) ∧
      (∀ (rejected : List (List Char)),
        (∀ e ∈ rejected, nonBlankLine e = true ∧
          ∀ v, leadingInt e = some v → v < 1 ∨ (options.length : Int) < v) →
        menuSelection options prompt errorInvalid (rejected.flatMap fun e => e ++ ['\n']) =
          ⟨Status.neverReturns,
            printMenu 0 options ++
              ((rejected.flatMap fun _ => [Out.prompt prompt, Out.message errorInvalid]) ++
                [Out.prompt prompt, Out.message errorInvalid]),
            []⟩) ∧
      (∀ (input : List Char) (v : Int),
        (menuSelection options prompt errorInvalid input).status = Status.returned v →
        (0 ≤ v ∧ v < (options.length : Int)) ∧
          ∃ s : List Char, s <:+ input ∧
            readInt s =
              (some (v + 1), (menuSelection options prompt errorInvalid input).rest)) := by
  refine ⟨?_, ?_, ?_⟩
  · intro rejected accepted k more hrej hacc hk hrange
    unfold menuSelection
    rw [if_pos (by omega), menuLoop_entries options.length prompt errorInvalid accepted k more
      hacc hk hrange rejected hrej]
    rfl
  · intro rejected hrej
    unfold menuSelection
    rw [if_pos (by omega), menuLoop_all_rejected options.length prompt errorInvalid rejected
      hrej]
    rfl
  · intro input v h
    unfold menuSelection at h ⊢
    rw [if_pos (by omega)] at h ⊢
    simp only [Run.after_status] at h
    obtain ⟨s, hs, hrd, hlo, hhi⟩ :=
      menuLoop_returned_at options.length prompt errorInvalid _ input v h
    exact ⟨⟨by omega, by omega⟩, s, hs, by simpa using hrd⟩

/-- Instance of C2 (amended): over three options the entries "x", "15", "0"
and "-2 1" are rejected with one error line each, and the entry "2x" returns
index 1; the entries "x", "15" alone end in re-prompting for ever, with no
value returned. -/
theorem menuSelection_rejects_until_valid_witness :
    menuSelection ["Option A", "Option B", "Option C"] "Select an option: "
        "Please enter a valid option!"
        ['x', '\n', '1', '5', '\n', '0', '\n', '-', '2', ' ', '1', '\n', '2', 'x', '\n'] =
      ⟨Status.returned 1,
        [Out.menuItem 1 "Option A", Out.menuItem 2 "Option B", Out.menuItem 3 "Option C",
          Out.prompt "Select an option: ", Out.message "Please enter a valid option!",
          Out.prompt "Select an option: ", Out.message "Please enter a valid option!",
          Out.prompt "Select an option: ", Out.message "Please enter a valid option!",
          Out.prompt "Select an option: ", Out.message "Please enter a valid option!",
          Out.prompt "Select an option: "],
        ['x', '\n']⟩ ∧
    menuSelection ["Option A", "Option B", "Option C"] "Select an option: "
        "Please enter a valid option!" ['x', '\n', '1', '5', '\n'] =
      ⟨Status.neverReturns,
        [Out.menuItem 1 "Option A", Out.menuItem 2 "Option B", Out.menuItem 3 "Option C",
          Out.prompt "Select an option: ", Out.message "Please enter a valid option!",
          Out.prompt "Select an option: ", Out.message "Please enter a valid option!",
          Out.prompt "Select an option: ", Out.message "Please enter a valid option!"],
        []⟩ ∧
    ((menuSelection ["Option A", "Option B", "Option C"] "Select an option: "
        "Please enter a valid option!" ['7', '\n', '3', '\n']).status = Status.returned 2 ∧
      (0 ≤ (2 : Int) ∧ (2 : Int) < (["Option A", "Option B", "Option C"].length : Int))) :=
  ⟨(menuSelection_rejects_until_valid ["Option A", "Option B", "Option C"] "Select an option: "
      "Please enter a valid option!" (by decide)).1
      [['x'], ['1', '5'], ['0'], ['-', '2', ' ', '1']] ['2', 'x'] 2 []
      (by decide) (by decide) (by decide) (by decide),
    (menuSelection_rejects_until_valid ["Option A", "Option B", "Option C"] "Select an option: "
      "Please enter a valid option!" (by decide)).2.1 [['x'], ['1', '5']] (by decide),
    by decide,
    ((menuSelection_rejects_until_valid ["Option A", "Option B", "Option C"]
      "Select an option: " "Please enter a valid option!" (by decide)).2.2
      ['7', '\n', '3', '\n'] 2 (by decide)).1⟩

/-! ## getIntSelective: the value returned -/

theorem getIntLoop_returned_range (prompt : String) (max min : Int)
    (errorInvalid errorTooBig errorTooSmall : String) :
    ∀ (fuel : Nat) (input : List Char) (v : Int),
      (getIntLoop prompt max min errorInvalid errorTooBig errorTooSmall fuel input).status =
        Status.returned v → min ≤ v ∧ v ≤ max := by
  intro fuel
  induction fuel with
  | zero => intro input v h; simp [getIntLoop] at h
  | succ f ih =>
    intro input v h
    unfold getIntLoop at h
    cases hread : readInt input with
    | mk o rest =>
      rw [hread] at h
      cases o with
      | none =>
        simp only at h
        split_ifs at h
        exact ih _ v (by simpa using h)
      | some w =>
        simp only at h
        split_ifs at h with h1 h2
        · exact ih _ v (by simpa using h)
        · exact ih _ v (by simpa using h)
        · simp only [Status.returned.injEq] at h
          subst h
          constructor <;> omega

/-- C3: for bounds `min < max`, whatever the input, a value that
`getIntSelective` returns lies in `[min, max]`; and when the first token of the
input is an integer `v` with `min ≤ v ≤ max`, the call returns exactly `v`
after one prompt, with no error message. -/
theorem getIntSelective_returns_in_range (prompt : String) (max min : Int)
    (errorInvalid errorTooBig errorTooSmall : String)
    (hmm : min < max) (hmin : INT_MIN ≤ min) (hmax : max ≤ INT_MAX) :
    (∀ (input : List Char) (v : Int),
        (getIntSelective prompt max min errorInvalid errorTooBig errorTooSmall input).status =
          Status.returned v → min ≤ v ∧ v ≤ max) ∧
      (∀ (ws ds rest : List Char) (negative : Bool),
        (∀ w ∈ ws, isSpace w = true) → ds ≠ [] → (∀ d ∈ ds, isDigit d = true) →
        (∀ c ∈ rest.head?, isDigit c = false) →
        min ≤ signedValue negative ds → signedValue negative ds ≤ max →
        getIntSelective prompt max min errorInvalid errorTooBig errorTooSmall
            (ws ++ intToken negative ds ++ rest) =
          ⟨Status.returned (signedValue negative ds), [Out.prompt prompt], rest⟩) := by
  constructor
  · intro input v h
    unfold getIntSelective at h
    rw [if_pos hmm] at h
    exact getIntLoop_returned_range prompt max min errorInvalid errorTooBig errorTooSmall _ _ v h
  · intro ws ds rest negative hws hds hd hrest hlo hhi
    have hread := readInt_token ws ds rest negative hws hds hd hrest
      ⟨by omega, by omega⟩
    unfold getIntSelective
    rw [if_pos hmm]
    unfold getIntLoop
    rw [hread]
    simp only
    rw [if_neg (by omega), if_neg (by omega)]

/-- Instance of C3: input "5" with bounds (1, 10) returns 5 after the prompt
alone. -/
theorem getIntSelective_returns_in_range_witness :
    ((1 : Int) < 10 ∧ INT_MIN ≤ 1 ∧ (10 : Int) ≤ INT_MAX) ∧
    getIntSelective "Enter a number between 1-10: " 10 1 "Invalid input. Try again!"
        "Input too big. Try again!" "Input too small. Try again!" ['5'] =
      ⟨Status.returned 5, [Out.prompt "Enter a number between 1-10: "], []⟩ :=
  ⟨by decide,
    (getIntSelective_returns_in_range "Enter a number between 1-10: " 10 1
      "Invalid input. Try again!" "Input too big. Try again!" "Input too small. Try again!"
      (by decide) (by decide) (by decide)).2 [] ['5'] [] false (by simp) (by simp)
      (by decide) (by simp) (by decide) (by decide)⟩

/-! ## getIntSelective: what is discarded after a rejection -/

/-- Counterexample to C4: with bounds (1, 10) the line "15 4" followed by the
line "7" returns 4, not 7: after the too-big 15 the rest of the line is
still read. -/
theorem getIntSelective_discard_counterexample :
    getIntSelective "Enter a number between 1-10: " 10 1 "Invalid input. Try again!"
        "Input too big. Try again!" "Input too small. Try again!"
        ['1', '5', ' ', '4', '\n', '7', '\n'] =
      ⟨Status.returned 4,
        [Out.prompt "Enter a number between 1-10: ", Out.message "Input too big. Try again!",
          Out.prompt "Enter a number between 1-10: "],
        ['\n', '7', '\n']⟩ := by
  decide

/-- C4 (amended): `getIntSelective` discards the remainder of the current
line only after a failed extraction: an entry at which the extraction fails
writes `errorInvalid` and the reading goes on after the end of its line.
After an integer above `max` or below `min` it writes `errorTooBig` or
`errorTooSmall` and goes on with what directly follows the integer, on the
same line. -/
theorem getIntSelective_discards_after_failed_extraction (prompt : String) (max min : Int)
    (errorInvalid errorTooBig errorTooSmall : String) (hmm : min < max) :
    (∀ (e more : List Char), nonBlankLine e = true → leadingInt e = none →
        getIntSelective prompt max min errorInvalid errorTooBig errorTooSmall
            (e ++ '\n' :: more) =
          Run.after [Out.prompt prompt, Out.message errorInvalid]
            (getIntSelective prompt max min errorInvalid errorTooBig errorTooSmall more)) ∧
      (∀ (ws ds rest : List Char) (negative : Bool),
        (∀ w ∈ ws, isSpace w = true) → ds ≠ [] → (∀ d ∈ ds, isDigit d = true) →
        (∀ c ∈ rest.head?, isDigit c = false) →
        INT_MIN ≤ signedValue negative ds ∧ signedValue negative ds ≤ INT_MAX →
        (signedValue negative ds > max →
          getIntSelective prompt max min errorInvalid errorTooBig errorTooSmall
              (ws ++ intToken negative ds ++ rest) =
            Run.after [Out.prompt prompt, Out.message errorTooBig]
              (getIntSelective prompt max min errorInvalid errorTooBig errorTooSmall rest)) ∧
        (signedValue negative ds < min →
          getIntSelective prompt max min errorInvalid errorTooBig errorTooSmall
              (ws ++ intToken negative ds ++ rest) =
            Run.after [Out.prompt prompt, Out.message errorTooSmall]
              (getIntSelective prompt max min errorInvalid errorTooBig errorTooSmall rest))) := by
  constructor
  · intro e more he hnone
    have hread : readInt (e ++ '\n' :: more) = (none, (readInt e).2 ++ '\n' :: more) := by
      rw [readInt_line e more he]
      unfold leadingInt at hnone
      rw [hnone]
    unfold getIntSelective
    rw [if_pos hmm, if_pos hmm,
      getIntLoop_invalid prompt max min errorInvalid errorTooBig errorTooSmall _ _ hread
        (by simp),
      ignoreLine_after_entry e more he]
  · intro ws ds rest negative hws hds hd hrest hrange
    have hread := readInt_token ws ds rest negative hws hds hd hrest hrange
    constructor
    · intro hbig
      unfold getIntSelective
      rw [if_pos hmm, if_pos hmm,
        getIntLoop_tooBig prompt max min errorInvalid errorTooBig errorTooSmall _ _ _ hread
          hbig]
    · intro hsmall
      unfold getIntSelective
      rw [if_pos hmm, if_pos hmm,
        getIntLoop_tooSmall prompt max min errorInvalid errorTooBig errorTooSmall _ _ _ hread
          (by omega) hsmall]

/-- Instance of C4 (amended): with bounds (1, 10), after the 15 of the line
"15 4" the reading goes on with " 4" on the same line; after the entry "x y"
it goes on with the next line. -/
theorem getIntSelective_discards_after_failed_extraction_witness :
    getIntSelective "Enter a number between 1-10: " 10 1 "Invalid input. Try again!"
        "Input too big. Try again!" "Input too small. Try again!"
        ['1', '5', ' ', '4', '\n', '7', '\n'] =
      Run.after [Out.prompt "Enter a number between 1-10: ",
          Out.message "Input too big. Try again!"]
        (getIntSelective "Enter a number between 1-10: " 10 1 "Invalid input. Try again!"
          "Input too big. Try again!" "Input too small. Try again!"
          [' ', '4', '\n', '7', '\n']) ∧
    getIntSelective "Enter a number between 1-10: " 10 1 "Invalid input. Try again!"
        "Input too big. Try again!" "Input too small. Try again!"
        ['x', ' ', 'y', '\n', '7', '\n'] =
      Run.after [Out.prompt "Enter a number between 1-10: ",
          Out.message "Invalid input. Try again!"]
        (getIntSelective "Enter a number between 1-10: " 10 1 "Invalid input. Try again!"
          "Input too big. Try again!" "Input too small. Try again!" ['7', '\n']) :=
  ⟨((getIntSelective_discards_after_failed_extraction "Enter a number between 1-10: " 10 1
      "Invalid input. Try again!" "Input too big. Try again!" "Input too small. Try again!"
      (by decide)).2 [] ['1', '5'] [' ', '4', '\n', '7', '\n'] false (by simp) (by simp)
      (by decide) (by decide) (by decide)).1 (by decide),
    (getIntSelective_discards_after_failed_extraction "Enter a number between 1-10: " 10 1
      "Invalid input. Try again!" "Input too big. Try again!" "Input too small. Try again!"
      (by decide)).1 ['x', ' ', 'y'] ['7', '\n'] (by decide) (by decide)⟩

/-! ## getIntSelective: one message per rejected entry -/

theorem countP_isMessage_rejections (prompt : String) (text : Rejection → String) :
    ∀ rejected : List (List Char × Rejection),
      List.countP Out.isMessage
          ((rejected.flatMap fun r => [Out.prompt prompt, Out.message (text r.2)]) ++
            [Out.prompt prompt]) = rejected.length := by
  intro rejected
  induction rejected with
  | nil => rfl
  | cons r tl ih =>
    simp only [List.flatMap_cons, List.cons_append, List.nil_append, List.length_cons]
    rw [List.countP_cons, List.countP_cons, ih]
    simp [Out.isMessage]

theorem getIntLoop_entries (prompt : String) (max min : Int)
    (errorInvalid errorTooBig errorTooSmall : String) (accepted : List Char)
    (v : Int) (more : List Char) (hacc : nonBlankLine accepted = true)
    (hv : leadingInt accepted = some v) (hrange : min ≤ v ∧ v ≤ max) :
    ∀ (rejected : List (List Char × Rejection)) (ws : List Char),
      (∀ w ∈ ws, isSpace w = true) →
      (∀ r ∈ rejected, nonBlankLine r.1 = true ∧ rejectionOf max min r.1 = some r.2) →
      getIntLoop prompt max min errorInvalid errorTooBig errorTooSmall
          ((ws ++ ((rejected.flatMap fun r => r.1 ++ ['\n']) ++
            (accepted ++ '\n' :: more))).length + 1)
          (ws ++ ((rejected.flatMap fun r => r.1 ++ ['\n']) ++ (accepted ++ '\n' :: more))) =
        ⟨Status.returned v,
          (rejected.flatMap fun r =>
            [Out.prompt prompt,
              Out.message (r.2.text errorInvalid errorTooBig errorTooSmall)]) ++
            [Out.prompt prompt],
          (readInt accepted).2 ++ '\n' :: more⟩ := by
  intro rejected
  induction rejected with
  | nil =>
    intro ws hws _
    have hread : readInt (ws ++ ([] ++ (accepted ++ '\n' :: more))) =
        (some v, (readInt accepted).2 ++ '\n' :: more) := by
      rw [readInt_skip ws _ hws, List.nil_append, readInt_line accepted more hacc]
      unfold leadingInt at hv
      rw [hv]
    exact getIntLoop_accept prompt max min errorInvalid errorTooBig errorTooSmall _ v _
      hread hrange
  | cons r tl ih =>
    intro ws hws hrej
    obtain ⟨h1, h2⟩ := hrej r (List.mem_cons_self _ _)
    have htl := ih
    have hrest : ∀ x ∈ tl, nonBlankLine x.1 = true ∧ rejectionOf max min x.1 = some x.2 :=
      fun x hx => hrej x (List.mem_cons_of_mem _ hx)
    have hin : ws ++ (((r :: tl).flatMap fun r => r.1 ++ ['\n']) ++
        (accepted ++ '\n' :: more)) =
        ws ++ (r.1 ++ '\n' :: ((tl.flatMap fun r => r.1 ++ ['\n']) ++
          (accepted ++ '\n' :: more))) := by
      simp [List.flatMap_cons]
    have hne : ws ++ (r.1 ++ '\n' :: ((tl.flatMap fun r => r.1 ++ ['\n']) ++
        (accepted ++ '\n' :: more))) ≠ [] := by simp
    have hread : readInt (ws ++ (r.1 ++ '\n' :: ((tl.flatMap fun r => r.1 ++ ['\n']) ++
        (accepted ++ '\n' :: more)))) =
        ((readInt r.1).1, (readInt r.1).2 ++ '\n' :: ((tl.flatMap fun r => r.1 ++ ['\n']) ++
          (accepted ++ '\n' :: more))) := by
      rw [readInt_skip ws _ hws, readInt_line r.1 _ h1]
    rw [hin]
    unfold rejectionOf at h2
    cases hr : readInt r.1 with
    | mk o trailing =>
      rw [hr] at h2 hread
      have hig := ignoreLine_after_entry r.1
        ((tl.flatMap fun r => r.1 ++ ['\n']) ++ (accepted ++ '\n' :: more)) h1
      rw [hr] at hig
      cases o with
      | none =>
        simp only [Option.some.injEq] at h2
        rw [getIntLoop_invalid prompt max min errorInvalid errorTooBig errorTooSmall _ _
          hread hne, hig]
        have h3 := htl [] (by simp) hrest
        rw [List.nil_append] at h3
        rw [h3]
        simp [Run.after, List.flatMap_cons, ← h2, Rejection.text]
      | some w =>
        simp only at h2
        have hassoc : trailing ++ '\n' :: ((tl.flatMap fun r => r.1 ++ ['\n']) ++
            (accepted ++ '\n' :: more)) =
            (trailing ++ ['\n']) ++ ((tl.flatMap fun r => r.1 ++ ['\n']) ++
              (accepted ++ '\n' :: more)) := by simp
        split_ifs at h2 with hbig hblank hsmall hblank
        · simp only [Option.some.injEq] at h2
          have hws2 : ∀ x ∈ trailing ++ ['\n'], isSpace x = true := by
            intro x hx
            rw [List.mem_append, List.mem_singleton] at hx
            rcases hx with hx | hx
            · exact List.all_eq_true.mp hblank x hx
            · subst hx; decide
          rw [getIntLoop_tooBig prompt max min errorInvalid errorTooBig errorTooSmall _ _ _
            hread hbig, hassoc, htl _ hws2 hrest]
          simp [Run.after, List.flatMap_cons, ← h2, Rejection.text]
        · simp only [Option.some.injEq] at h2
          have hws2 : ∀ x ∈ trailing ++ ['\n'], isSpace x = true := by
            intro x hx
            rw [List.mem_append, List.mem_singleton] at hx
            rcases hx with hx | hx
            · exact List.all_eq_true.mp hblank x hx
            · subst hx; decide
          rw [getIntLoop_tooSmall prompt max min errorInvalid errorTooBig errorTooSmall _ _ _
            hread hbig hsmall, hassoc, htl _ hws2 hrest]
          simp [Run.after, List.flatMap_cons, ← h2, Rejection.text]

/-- Counterexample to C5: with bounds (1, 10) the entry "99999999999", an
integer above `max`, gets the `errorInvalid` message (it does not fit in
`int`, so the extraction fails) and not `errorTooBig`; and the single
rejected entry "15x" gets two messages, `errorTooBig` for the 15 and
`errorInvalid` for the x. -/
theorem getIntSelective_messages_counterexample :
    isIntegerText ['9', '9', '9', '9', '9', '9', '9', '9', '9', '9', '9'] = true ∧
    getIntSelective "Enter a number between 1-10: " 10 1 "Invalid input. Try again!"
        "Input too big. Try again!" "Input too small. Try again!"
        ['9', '9', '9', '9', '9', '9', '9', '9', '9', '9', '9', '\n', '4', '\n'] =
      ⟨Status.returned 4,
        [Out.prompt "Enter a number between 1-10: ", Out.message "Invalid input. Try again!",
          Out.prompt "Enter a number between 1-10: "],
        ['\n']⟩ ∧
    getIntSelective "Enter a number between 1-10: " 10 1 "Invalid input. Try again!"
        "Input too big. Try again!" "Input too small. Try again!"
        ['1', '5', 'x', '\n', '4', '\n'] =
      ⟨Status.returned 4,
        [Out.prompt "Enter a number between 1-10: ", Out.message "Input too big. Try again!",
          Out.prompt "Enter a number between 1-10: ", Out.message "Invalid input. Try again!",
          Out.prompt "Enter a number between 1-10: "],
        ['\n']⟩ := by
  decide

/-- C5 (amended): for bounds `min < max` and every sequence of non-blank
entries given one per line, in which each rejected entry holds one item,
`getIntSelective` writes exactly one message per rejected entry:
`errorInvalid` for an entry at which the extraction fails (no integer at
its start, or an integer that does not fit in `int`), `errorTooBig` for
an `int` above `max` and `errorTooSmall` for an `int` below `min` (each
followed by blanks only); the accepted entry, whose leading integer is
in `[min, max]`, writes none and its integer is returned; so the number of
messages is the number of rejected entries. -/
theorem getIntSelective_one_message_per_rejection (prompt : String) (max min : Int)
    (errorInvalid errorTooBig errorTooSmall : String)
    (rejected : List (List Char × Rejection)) (accepted : List Char) (v : Int)
    (more : List Char) (hmm : min < max)
    (hrej : ∀ r ∈ rejected, nonBlankLine r.1 = true ∧ rejectionOf max min r.1 = some r.2)
    (hacc : nonBlankLine accepted = true) (hv : leadingInt accepted = some v)
    (hrange : min ≤ v ∧ v ≤ max) :
    getIntSelective prompt max min errorInvalid errorTooBig errorTooSmall
        ((rejected.flatMap fun r => r.1 ++ ['\n']) ++ (accepted ++ '\n' :: more)) =
      ⟨Status.returned v,
        (rejected.flatMap fun r =>
          [Out.prompt prompt, Out.message (r.2.text errorInvalid errorTooBig errorTooSmall)]) ++
          [Out.prompt prompt],
        (readInt accepted).2 ++ '\n' :: more⟩ ∧
      List.countP Out.isMessage
          (getIntSelective prompt max min errorInvalid errorTooBig errorTooSmall
            ((rejected.flatMap fun r => r.1 ++ ['\n']) ++ (accepted ++ '\n' :: more))).out =
        rejected.length := by
  have hrun : getIntSelective prompt max min errorInvalid errorTooBig errorTooSmall
      ((rejected.flatMap fun r => r.1 ++ ['\n']) ++ (accepted ++ '\n' :: more)) =
      ⟨Status.returned v,
        (rejected.flatMap fun r =>
          [Out.prompt prompt, Out.message (r.2.text errorInvalid errorTooBig errorTooSmall)]) ++
          [Out.prompt prompt],
        (readInt accepted).2 ++ '\n' :: more⟩ := by
    have h := getIntLoop_entries prompt max min errorInvalid errorTooBig errorTooSmall accepted
      v more hacc hv hrange rejected [] (by simp) hrej
    rw [List.nil_append] at h
    unfold getIntSelective
    rw [if_pos hmm, h]
  refine ⟨hrun, ?_⟩
  rw [hrun]
  exact countP_isMessage_rejections prompt
    (fun k => k.text errorInvalid errorTooBig errorTooSmall) rejected

/-- Instance of C5 (amended): with bounds (1, 10) the entries "x", "15", "4"
write `errorInvalid`, then `errorTooBig`, and return 4. -/
theorem getIntSelective_one_message_per_rejection_witness :
    getIntSelective "Enter a number between 1-10: " 10 1 "Invalid input. Try again!"
        "Input too big. Try again!" "Input too small. Try again!"
        ['x', '\n', '1', '5', '\n', '4', '\n'] =
      ⟨Status.returned 4,
        [Out.prompt "Enter a number between 1-10: ", Out.message "Invalid input. Try again!",
          Out.prompt "Enter a number between 1-10: ", Out.message "Input too big. Try again!",
          Out.prompt "Enter a number between 1-10: "],
        ['\n']⟩ :=
  (getIntSelective_one_message_per_rejection "Enter a number between 1-10: " 10 1
    "Invalid input. Try again!" "Input too big. Try again!" "Input too small. Try again!"
    [(['x'], Rejection.invalid), (['1', '5'], Rejection.tooBig)] ['4'] 4 []
    (by decide) (by decide) (by decide) (by decide) (by decide)).1

/-! ## Preconditions -/

theorem menuLoop_not_assertionFailed (n : Nat) (prompt errorInvalid : String) :
    ∀ (fuel : Nat) (input : List Char),
      (menuLoop n prompt errorInvalid fuel input).status ≠ Status.assertionFailed := by
  intro fuel
  induction fuel with
  | zero => intro input; simp [menuLoop]
  | succ f ih =>
    intro input
    unfold menuLoop
    cases hread : readInt input with
    | mk o rest =>
      cases o with
      | none =>
        simp only
        split_ifs
        · simp
        · simpa using ih _
      | some w =>
        simp only
        split_ifs
        · simp
        · simpa using ih _

theorem getIntLoop_not_assertionFailed (prompt : String) (max min : Int)
    (errorInvalid errorTooBig errorTooSmall : String) :
    ∀ (fuel : Nat) (input : List Char),
      (getIntLoop prompt max min errorInvalid errorTooBig errorTooSmall fuel input).status ≠
        Status.assertionFailed := by
  intro fuel
  induction fuel with
  | zero => intro input; simp [getIntLoop]
  | succ f ih =>
    intro input
    unfold getIntLoop
    cases hread : readInt input with
    | mk o rest =>
      cases o with
      | none =>
        simp only
        split_ifs
        · simp
        · simpa using ih _
      | some w =>
        simp only
        split_ifs
        · simpa using ih _
        · simpa using ih _
        · simp

/-- C10: precondition violations fail fast.  `menuSelection` fails its
assertion exactly when the number of options is not in `[2, 9]`, and
`getIntSelective` exactly when `min < max` does not hold; a call that fails its
assertion has written nothing and read nothing, and returns no value. -/
theorem precondition_fail_fast (options : List String) (prompt errorInvalid : String)
    (max min : Int) (errorTooBig errorTooSmall : String) (input : List Char) :
    ((menuSelection options prompt errorInvalid input).status = Status.assertionFailed ↔
        ¬(2 ≤ options.length ∧ options.length ≤ 9)) ∧
      (¬(2 ≤ options.length ∧ options.length ≤ 9) →
        menuSelection options prompt errorInvalid input =
          ⟨Status.assertionFailed, [], input⟩) ∧
      ((getIntSelective prompt max min errorInvalid errorTooBig errorTooSmall input).status =
          Status.assertionFailed ↔ ¬(min < max)) ∧
      (¬(min < max) →
        getIntSelective prompt max min errorInvalid errorTooBig errorTooSmall input =
          ⟨Status.assertionFailed, [], input⟩) := by
  refine ⟨?_, ?_, ?_, ?_⟩
  · unfold menuSelection
    by_cases h : 1 < options.length ∧ options.length < 10
    · rw [if_pos h]
      have := menuLoop_not_assertionFailed options.length prompt errorInvalid
        (input.length + 1) input
      simp only [Run.after_status]
      constructor
      · intro hs; exact absurd hs this
      · intro hn; exact absurd (show 2 ≤ options.length ∧ options.length ≤ 9 by omega) hn
    · rw [if_neg h]
      simp only [true_iff]
      omega
  · intro hn
    unfold menuSelection
    rw [if_neg (by omega)]
  · unfold getIntSelective
    by_cases h : min < max
    · rw [if_pos h]
      have := getIntLoop_not_assertionFailed prompt max min errorInvalid errorTooBig
        errorTooSmall (input.length + 1) input
      constructor
      · intro hs; exact absurd hs this
      · intro hn; exact absurd h hn
    · rw [if_neg h]
      simp only [true_iff]
      exact h
  · intro hn
    unfold getIntSelective
    rw [if_neg hn]

/-- Instance of C10: a menu of one option and bounds with `min = max` fail
their assertions, with the input "2" untouched and nothing written. -/
theorem precondition_fail_fast_witness :
    (¬(2 ≤ ["Only"].length ∧ ["Only"].length ≤ 9) ∧
      menuSelection ["Only"] "Select an option: " "Please enter a valid option!" ['2', '\n'] =
        ⟨Status.assertionFailed, [], ['2', '\n']⟩) ∧
    (¬((5 : Int) < 5) ∧
      getIntSelective "Select an option: " 5 5 "Please enter a valid option!" "big" "small"
          ['2', '\n'] =
        ⟨Status.assertionFailed, [], ['2', '\n']⟩) :=
  ⟨⟨by decide,
      (precondition_fail_fast ["Only"] "Select an option: " "Please enter a valid option!"
        5 5 "big" "small" ['2', '\n']).2.1 (by decide)⟩,
    ⟨by decide,
      (precondition_fail_fast ["Only"] "Select an option: " "Please enter a valid option!"
        5 5 "big" "small" ['2', '\n']).2.2.2 (by decide)⟩⟩

/-! ## getCharSelective -/

theorem getCharLoop_returned_member (prompt : String) (valid_chars : List Char)
    (errorInvalid errorNotInList : String) :
    ∀ (fuel : Nat) (input : List Char) (c : Char),
      (getCharLoop prompt valid_chars errorInvalid errorNotInList fuel input).status =
        Status.returned c → valid_chars = [] ∨ c ∈ valid_chars := by
  intro fuel
  induction fuel with
  | zero => intro input c h; simp [getCharLoop] at h
  | succ f ih =>
    intro input c h
    unfold getCharLoop at h
    cases hread : readChar input with
    | mk o rest =>
      rw [hread] at h
      cases o with
      | none =>
        simp only at h
        split_ifs at h
        exact ih _ c (by simpa using h)
      | some w =>
        simp only at h
        split_ifs at h with h1
        · exact ih _ c (by simpa using h)
        · simp only [Status.returned.injEq] at h
          subst h
          by_cases hl : valid_chars = []
          · exact Or.inl hl
          · right
            by_contra hmem
            exact h1 ⟨by simpa using hl, hmem⟩

theorem getCharLoop_rejections (prompt : String) (valid_chars : List Char)
    (errorInvalid errorNotInList : String) (ws : List Char) (c : Char) (rest : List Char)
    (hne : valid_chars ≠ []) (hws : ∀ w ∈ ws, isSpace w = true) (hc : isSpace c = false)
    (hmem : c ∈ valid_chars) :
    ∀ rejected : List (List Char × Char),
      (∀ r ∈ rejected, (∀ w ∈ r.1, isSpace w = true) ∧ isSpace r.2 = false ∧
        r.2 ∉ valid_chars) →
      getCharLoop prompt valid_chars errorInvalid errorNotInList
          (((rejected.flatMap fun r => r.1 ++ [r.2]) ++ (ws ++ c :: rest)).length + 1)
          ((rejected.flatMap fun r => r.1 ++ [r.2]) ++ (ws ++ c :: rest)) =
        ⟨Status.returned c,
          (rejected.flatMap fun _ => [Out.prompt prompt, Out.message errorNotInList]) ++
            [Out.prompt prompt], rest⟩ := by
  intro rejected
  induction rejected with
  | nil =>
    intro _
    exact getCharLoop_accept prompt valid_chars errorInvalid errorNotInList _ c rest
      (readChar_token ws c rest hws hc) (Or.inr hmem)
  | cons r tl ih =>
    intro hrej
    obtain ⟨h1, h2, h3⟩ := hrej r (List.mem_cons_self _ _)
    have htl := ih (fun x hx => hrej x (List.mem_cons_of_mem _ hx))
    have hin : ((r :: tl).flatMap fun r => r.1 ++ [r.2]) ++ (ws ++ c :: rest) =
        r.1 ++ r.2 :: ((tl.flatMap fun r => r.1 ++ [r.2]) ++ (ws ++ c :: rest)) := by
      simp [List.flatMap_cons]
    rw [hin, getCharLoop_reject prompt valid_chars errorInvalid errorNotInList _ r.2 _
      (readChar_token r.1 r.2 _ h1 h2) hne h3, htl]
    simp [Run.after, List.flatMap_cons]

/-- C6: whatever the allow-list `L` (empty or not) and the input, a character
`c` that `getCharSelective` returns satisfies `L = []` or `c ∈ L`; and with a
non-empty `L`, each character read that is not in `L` writes `errorNotInList`
once and is not returned: after the characters `rejected` (none in `L`, each
after optional whitespace) and then a character `c` of `L`, the output is one
prompt and one `errorNotInList` per rejected character, then the last prompt,
and the value returned is `c`. -/
theorem getCharSelective_allow_list (prompt : String) (valid_chars : List Char)
    (errorInvalid errorNotInList : String) :
    (∀ (input : List Char) (c : Char),
        (getCharSelective prompt valid_chars errorInvalid errorNotInList input).status =
          Status.returned c → valid_chars = [] ∨ c ∈ valid_chars) ∧
      (∀ (rejected : List (List Char × Char)) (ws : List Char) (c : Char) (rest : List Char),
        valid_chars ≠ [] →
        (∀ r ∈ rejected, (∀ w ∈ r.1, isSpace w = true) ∧ isSpace r.2 = false ∧
          r.2 ∉ valid_chars) →
        (∀ w ∈ ws, isSpace w = true) → isSpace c = false → c ∈ valid_chars →
        getCharSelective prompt valid_chars errorInvalid errorNotInList
            ((rejected.flatMap fun r => r.1 ++ [r.2]) ++ (ws ++ c :: rest)) =
          ⟨Status.returned c,
            (rejected.flatMap fun _ => [Out.prompt prompt, Out.message errorNotInList]) ++
              [Out.prompt prompt], rest⟩) := by
  constructor
  · intro input c h
    exact getCharLoop_returned_member prompt valid_chars errorInvalid errorNotInList _ input c h
  · intro rejected ws c rest hne hrej hws hc hmem
    exact getCharLoop_rejections prompt valid_chars errorInvalid errorNotInList ws c rest hne
      hws hc hmem rejected hrej

/-- Instance of C6: allow-list a, b, c and the entries "d" then "b" write one
not-in-list message and return the character b. -/
theorem getCharSelective_allow_list_witness :
    getCharSelective "Enter a, b, or c: " ['a', 'b', 'c']
        "Input is not a character. Try again!" "Invalid input. Try again!"
        ['d', '\n', 'b', '\n'] =
      ⟨Status.returned 'b',
        [Out.prompt "Enter a, b, or c: ", Out.message "Invalid input. Try again!",
          Out.prompt "Enter a, b, or c: "], ['\n']⟩ :=
  (getCharSelective_allow_list "Enter a, b, or c: " ['a', 'b', 'c']
    "Input is not a character. Try again!" "Invalid input. Try again!").2
    [([], 'd')] ['\n'] 'b' ['\n'] (by decide) (by decide) (by decide) (by decide) (by decide)

theorem getCharLoop_returned_out (prompt : String) (valid_chars : List Char)
    (errorInvalid errorNotInList : String) :
    ∀ (fuel : Nat) (input : List Char) (c : Char),
      (getCharLoop prompt valid_chars errorInvalid errorNotInList fuel input).status =
        Status.returned c →
      ∀ o ∈ (getCharLoop prompt valid_chars errorInvalid errorNotInList fuel input).out,
        o = Out.prompt prompt ∨ o = Out.message errorNotInList := by
  intro fuel
  induction fuel with
  | zero => intro input c h; simp [getCharLoop] at h
  | succ f ih =>
    intro input c h
    unfold getCharLoop at h ⊢
    cases hread : readChar input with
    | mk o rest =>
      rw [hread] at h
      cases o with
      | none =>
        have hr := readChar_none_rest input rest hread
        subst hr
        simp only at h ⊢
        split_ifs at h ⊢ with hin
        exfalso
        cases f with
        | zero => simp [getCharLoop] at h
        | succ g => simp [getCharLoop, ignoreLine, readChar, skipWs] at h
      | some w =>
        simp only at h ⊢
        split_ifs at h ⊢ with h1
        · intro o ho
          simp only [Run.after_out, List.mem_append, List.mem_cons, List.mem_singleton,
            List.not_mem_nil, or_false] at ho
          rcases ho with (ho | ho) | ho
          · exact Or.inl ho
          · exact Or.inr ho
          · exact ih rest c (by simpa using h) o ho
        · intro o ho
          simp only [List.mem_singleton] at ho
          exact Or.inl ho

/-- Counterexample to C7: the tokens "bcd" (allow-list a, b, c) and "xy" (empty
allow-list) are not rejected: the first character of each is returned after
the prompt alone, and the rest of the token stays in the input. -/
theorem getCharSelective_token_counterexample :
    getCharSelective "Enter a, b, or c: " ['a', 'b', 'c']
        "Input is not a character. Try again!" "Invalid input. Try again!"
        ['b', 'c', 'd', '\n'] =
      ⟨Status.returned 'b', [Out.prompt "Enter a, b, or c: "], ['c', 'd', '\n']⟩ ∧
    getCharSelective "Enter a char: " []
        "Input is not a character. Try again!" "Invalid input. Try again!"
        ['x', 'y', '\n'] =
      ⟨Status.returned 'x', [Out.prompt "Enter a char: "], ['y', '\n']⟩ := by
  decide

/-- C7 (amended): `getCharSelective` reads one non-whitespace character at a
time, not a token.  The first such character is returned after the prompt
alone when the allow-list is empty or contains it, whatever follows it; a
character outside a non-empty allow-list writes the not-in-list message and
the reading goes on with the character that follows, nothing being
discarded; and a call that returns has written no not-a-character message
(what it wrote is prompts and not-in-list messages only). -/
theorem getCharSelective_reads_one_character (prompt : String) (valid_chars : List Char)
    (errorInvalid errorNotInList : String) (ws : List Char) (c : Char) (rest : List Char)
    (hws : ∀ w ∈ ws, isSpace w = true) (hc : isSpace c = false) :
    (valid_chars = [] ∨ c ∈ valid_chars →
        getCharSelective prompt valid_chars errorInvalid errorNotInList (ws ++ c :: rest) =
          ⟨Status.returned c, [Out.prompt prompt], rest⟩) ∧
      (valid_chars ≠ [] ∧ c ∉ valid_chars →
        getCharSelective prompt valid_chars errorInvalid errorNotInList (ws ++ c :: rest) =
          Run.after [Out.prompt prompt, Out.message errorNotInList]
            (getCharSelective prompt valid_chars errorInvalid errorNotInList rest)) ∧
      (∀ (input : List Char) (r : Char),
        (getCharSelective prompt valid_chars errorInvalid errorNotInList input).status =
          Status.returned r →
        ∀ o ∈ (getCharSelective prompt valid_chars errorInvalid errorNotInList input).out,
          o = Out.prompt prompt ∨ o = Out.message errorNotInList) := by
  have hread := readChar_token ws c rest hws hc
  refine ⟨?_, ?_, ?_⟩
  · intro hok
    exact getCharLoop_accept prompt valid_chars errorInvalid errorNotInList _ c rest hread hok
  · rintro ⟨hne, hnot⟩
    exact getCharLoop_reject prompt valid_chars errorInvalid errorNotInList _ c rest hread
      hne hnot
  · intro input r h
    exact getCharLoop_returned_out prompt valid_chars errorInvalid errorNotInList _ input r h

/-- Instance of C7 (amended): with the allow-list a, b, c the line "xb" writes
one not-in-list message for the x and returns the b that follows it on the
same line. -/
theorem getCharSelective_reads_one_character_witness :
    getCharSelective "Enter a, b, or c: " ['a', 'b', 'c']
        "Input is not a character. Try again!" "Invalid input. Try again!"
        ['x', 'b', '\n'] =
      Run.after [Out.prompt "Enter a, b, or c: ", Out.message "Invalid input. Try again!"]
        (getCharSelective "Enter a, b, or c: " ['a', 'b', 'c']
          "Input is not a character. Try again!" "Invalid input. Try again!" ['b', '\n']) ∧
    getCharSelective "Enter a, b, or c: " ['a', 'b', 'c']
        "Input is not a character. Try again!" "Invalid input. Try again!" ['b', '\n'] =
      ⟨Status.returned 'b', [Out.prompt "Enter a, b, or c: "], ['\n']⟩ :=
  ⟨(getCharSelective_reads_one_character "Enter a, b, or c: " ['a', 'b', 'c']
      "Input is not a character. Try again!" "Invalid input. Try again!" [] 'x' ['b', '\n']
      (by simp) (by decide)).2.1 (by decide),
    (getCharSelective_reads_one_character "Enter a, b, or c: " ['a', 'b', 'c']
      "Input is not a character. Try again!" "Invalid input. Try again!" [] 'b' ['\n']
      (by simp) (by decide)).1 (by decide)⟩

/-! ## getCharUnbuffered -/

theorem lflag_clear_then_set (l m : Nat) (hl : l < 2 ^ 32) (hm : m < 2 ^ 32) :
    ((l &&& complement32 m) ||| m) % 2 ^ 32 = l ||| m := by
  have hc : complement32 m = 2 ^ 32 - (m + 1) := by
    unfold complement32
    omega
  apply Nat.eq_of_testBit_eq
  intro i
  rw [hc]
  simp only [Nat.testBit_mod_two_pow, Nat.testBit_or, Nat.testBit_and,
    Nat.testBit_two_pow_sub_succ hm]
  by_cases hi : i < 32
  · simp only [hi, decide_True, Bool.true_and]
    cases l.testBit i <;> cases m.testBit i <;> rfl
  · have hl2 : l.testBit i = false :=
      Nat.testBit_lt_two_pow (lt_of_lt_of_le hl (Nat.pow_le_pow_right (by omega) (by omega)))
    have hm2 : m.testBit i = false :=
      Nat.testBit_lt_two_pow (lt_of_lt_of_le hm (Nat.pow_le_pow_right (by omega) (by omega)))
    simp [hi, hl2, hm2]

theorem lflag_or_of_set (l m : Nat) (h : l &&& m = m) : l ||| m = l := by
  apply Nat.eq_of_testBit_eq
  intro i
  have hi := congrArg (fun x => Nat.testBit x i) h
  simp only [Nat.testBit_and] at hi
  rw [Nat.testBit_or]
  revert hi
  cases l.testBit i <;> cases m.testBit i <;> simp

/-- Counterexample to C8: a terminal with `ICANON` (2) set and `ECHO` (8)
cleared before the call has both set after it, so its attributes are not
the ones it had. -/
theorem getCharUnbuffered_restore_counterexample :
    (getCharUnbufferedPosix 2 8 (-1) ⟨0, 0, 0, 2, 0, [], 0, 0⟩ (some 97)).terminal =
        ⟨0, 0, 0, 10, 0, [], 0, 0⟩ ∧
      (getCharUnbufferedPosix 2 8 (-1) ⟨0, 0, 0, 2, 0, [], 0, 0⟩ (some 97)).terminal ≠
        ⟨0, 0, 0, 2, 0, [], 0, 0⟩ := by
  decide

/-- C8 (amended): whatever the local-flag word before the call and whatever
the read delivers, the terminal attributes after `getCharUnbuffered` (POSIX
variant) are the attributes before the call with the `ICANON` and `ECHO`
bits set, every other bit and field unchanged; so they are bit-identical
to the attributes before the call when `ICANON` and `ECHO` were both set
then. -/
theorem getCharUnbuffered_terminal_after (ICANON ECHO : Nat) (EOF : Int)
    (terminal : Termios) (getchar : Option Nat)
    (hflag : terminal.c_lflag < 2 ^ 32) (hmask : ICANON ||| ECHO < 2 ^ 32) :
    (getCharUnbufferedPosix ICANON ECHO EOF terminal getchar).terminal =
        { terminal with c_lflag := terminal.c_lflag ||| (ICANON ||| ECHO) } ∧
      (terminal.c_lflag &&& (ICANON ||| ECHO) = ICANON ||| ECHO →
        (getCharUnbufferedPosix ICANON ECHO EOF terminal getchar).terminal = terminal) := by
  have h1 : (getCharUnbufferedPosix ICANON ECHO EOF terminal getchar).terminal =
      { terminal with c_lflag := terminal.c_lflag ||| (ICANON ||| ECHO) } := by
    simp only [getCharUnbufferedPosix]
    rw [lflag_clear_then_set terminal.c_lflag (ICANON ||| ECHO) hflag hmask]
  refine ⟨h1, ?_⟩
  intro hset
  rw [h1, lflag_or_of_set terminal.c_lflag (ICANON ||| ECHO) hset]

/-- Instance of C8 (amended): a cooked terminal (local flags `0x8a3b`, with
`ICANON` and `ECHO` set) has the same attributes after the call, also when
the read fails. -/
theorem getCharUnbuffered_terminal_after_witness :
    ((35387 : Nat) < 2 ^ 32 ∧ (2 ||| 8 : Nat) < 2 ^ 32 ∧ (35387 &&& (2 ||| 8) : Nat) = 2 ||| 8) ∧
    (getCharUnbufferedPosix 2 8 (-1) ⟨1280, 5, 191, 35387, 0, [3, 28, 127], 15, 15⟩ none).terminal =
      ⟨1280, 5, 191, 35387, 0, [3, 28, 127], 15, 15⟩ :=
  ⟨by decide,
    (getCharUnbuffered_terminal_after 2 8 (-1) ⟨1280, 5, 191, 35387, 0, [3, 28, 127], 15, 15⟩ none
      (by decide) (by decide)).2 (by decide)⟩

/-- C9 at its failing input: in the POSIX variant a failed read (`getchar`
gives `EOF`, here -1) makes `getCharUnbuffered` return -1, not the
sentinel 0. -/
theorem getCharUnbuffered_posix_eof :
    (getCharUnbufferedPosix 2 8 (-1) ⟨1280, 5, 191, 35387, 0, [3, 28, 127], 15, 15⟩ none).key = -1 ∧
      (getCharUnbufferedPosix 2 8 (-1) ⟨1280, 5, 191, 35387, 0, [3, 28, 127], 15, 15⟩ none).key ≠ 0 := by
  decide

/-- The POSIX variant returns `EOF` whenever the read fails, whatever the
terminal. -/
theorem getCharUnbufferedPosix_key (ICANON ECHO : Nat) (EOF : Int) (terminal : Termios)
    (getchar : Option Nat) :
    (getCharUnbufferedPosix ICANON ECHO EOF terminal getchar).key =
      (match getchar with
        | some c => (c : Int)
        | none => EOF) := by
  rfl

/-- The console variant: an invalid handle gives 0; otherwise the events
that are not key-down events are passed over, and the first event that is
a failed read gives 0, the first key-down event its character code. -/
theorem getCharUnbufferedWin32_first_key (KEY_EVENT : Nat)
    (skipped : List InputRecord) (later : List (Option InputRecord))
    (hskip : ∀ r ∈ skipped, ¬(r.EventType = KEY_EVENT ∧ r.bKeyDown = true)) :
    (∀ events, getCharUnbufferedWin32 KEY_EVENT false events = some 0) ∧
      getCharUnbufferedWin32 KEY_EVENT true (skipped.map some ++ none :: later) = some 0 ∧
      (∀ irec : InputRecord, irec.EventType = KEY_EVENT → irec.bKeyDown = true →
        getCharUnbufferedWin32 KEY_EVENT true (skipped.map some ++ some irec :: later) =
          some irec.AsciiChar) := by
  refine ⟨fun _ => rfl, ?_, ?_⟩
  · simp only [getCharUnbufferedWin32, Bool.true_eq_false, if_false]
    induction skipped with
    | nil => rfl
    | cons r rs ih =>
      have hr := hskip r (List.mem_cons_self _ _)
      simp only [List.map_cons, List.cons_append, pollConsole, if_neg hr]
      exact ih (fun x hx => hskip x (List.mem_cons_of_mem _ hx))
  · intro irec h1 h2
    simp only [getCharUnbufferedWin32, Bool.true_eq_false, if_false]
    induction skipped with
    | nil => simp [pollConsole, h1, h2]
    | cons r rs ih =>
      have hr := hskip r (List.mem_cons_self _ _)
      simp only [List.map_cons, List.cons_append, pollConsole, if_neg hr]
      exact ih (fun x hx => hskip x (List.mem_cons_of_mem _ hx))

end CPPTools
